import Mathlib

/-!
Shallow embedding of the RouterOS address-list script generator of the
mikrotik-addresslist repository.  The generator exists in two revisions:
`src/mikrotik_addresslist/generate_script.py` (function `generate_script`,
which parses input lines with `ipaddress.ip_network(line)`, i.e. strict) and
`src/mikrotik_addresslist/__main__.py` (function `generate_script`, which
parses with `ipaddress.ip_network(line, strict=False)`).  Both revisions are
embedded below; they share all code except the strictness flag, which is
made an explicit parameter.

Python strings are modelled as lists of characters (`Str`).  Python's
`ipaddress.ip_network` is modelled for the dotted-quad IPv4 form and the
hex-colon IPv6 form with a numeric prefix length; the rarely used
netmask/hostmask prefix form (such as `10.0.0.0/255.255.255.0`), the
IPv4-embedded IPv6 notation (`::ffff:1.2.3.4`) and zone ids are outside the
modelled subset: the model rejects them where Python may accept them.  The
generator itself never emits any of those forms.
-/

set_option maxRecDepth 16000

abbrev Str := List Char

/-- Whitespace test used by the model of Python `str.strip` (the ASCII
whitespace characters). -/
def isWS (c : Char) : Bool :=
  c = ' ' || c = '\t' || c = '\n' || c = '\r' || c = '\x0b' || c = '\x0c'

/-- Model of Python `str.strip()`: remove leading and trailing whitespace. -/
def pyStrip (s : Str) : Str :=
  ((s.dropWhile isWS).reverse.dropWhile isWS).reverse

/-- Model of Python `str.split(sep)` for a one-character separator. -/
def splitOnChar (sep : Char) : Str → List Str
  | [] => [[]]
  | c :: cs =>
    if c = sep then [] :: splitOnChar sep cs
    else
      match splitOnChar sep cs with
      | [] => [[c]]
      | p :: ps => (c :: p) :: ps

/-- Model of Python `sep.join(parts)` for a one-character separator. -/
def joinWith (sep : Char) : List Str → Str
  | [] => []
  | [p] => p
  | p :: q :: ps => p ++ sep :: joinWith sep (q :: ps)

theorem splitOnChar_ne_nil (sep : Char) (s : Str) : splitOnChar sep s ≠ [] := by
  induction s with
  | nil => simp [splitOnChar]
  | cons c cs ih =>
    simp only [splitOnChar]
    split
    · simp
    · cases h : splitOnChar sep cs <;> simp

theorem splitOnChar_no_sep (sep : Char) (p : Str) (h : sep ∉ p) :
    splitOnChar sep p = [p] := by
  induction p with
  | nil => rfl
  | cons c cs ih =>
    simp only [List.mem_cons, not_or] at h
    simp only [splitOnChar]
    rw [if_neg (by exact fun hc => h.1 (hc ▸ rfl)), ih h.2]

theorem splitOnChar_append_sep (sep : Char) (p t : Str) (h : sep ∉ p) :
    splitOnChar sep (p ++ sep :: t) = p :: splitOnChar sep t := by
  induction p with
  | nil => simp [splitOnChar]
  | cons c cs ih =>
    simp only [List.mem_cons, not_or] at h
    simp only [List.cons_append, splitOnChar, List.append_eq]
    rw [if_neg (by exact fun hc => h.1 (hc ▸ rfl)), ih h.2]

theorem splitOnChar_joinWith (sep : Char) (parts : List Str) (hne : parts ≠ [])
    (h : ∀ p ∈ parts, sep ∉ p) :
    splitOnChar sep (joinWith sep parts) = parts := by
  induction parts with
  | nil => exact absurd rfl hne
  | cons p ps ih =>
    cases ps with
    | nil =>
      simp only [joinWith]
      exact splitOnChar_no_sep sep p (h p (by simp))
    | cons q qs =>
      simp only [joinWith]
      rw [splitOnChar_append_sep sep p _ (h p (by simp))]
      rw [ih (by simp) (fun x hx => h x (List.mem_cons_of_mem _ hx))]

/-- Decimal digit test, as in Python `str.isdigit` restricted to ASCII
(code points 48-57). -/
def isDigitChar (c : Char) : Bool := 48 ≤ c.toNat && c.toNat ≤ 57

/-- Value of a decimal digit character (code point minus 48). -/
def digitVal (c : Char) : Nat := c.toNat - 48

/-- Hexadecimal digit test (both cases, as accepted by `int(s, 16)`):
digits, `a`-`f` (97-102) or `A`-`F` (65-70). -/
def isHexChar (c : Char) : Bool :=
  isDigitChar c || (97 ≤ c.toNat && c.toNat ≤ 102)
    || (65 ≤ c.toNat && c.toNat ≤ 70)

/-- Value of a hexadecimal digit character. -/
def hexVal (c : Char) : Nat :=
  if isDigitChar c then digitVal c
  else if 97 ≤ c.toNat && c.toNat ≤ 102 then c.toNat - 97 + 10
  else c.toNat - 65 + 10

/-- Accumulating decimal value of a digit string, as `int(s, 10)`. -/
def decValAux (acc : Nat) : Str → Nat
  | [] => acc
  | c :: cs => decValAux (acc * 10 + digitVal c) cs

/-- Accumulating hexadecimal value of a digit string, as `int(s, 16)`. -/
def hexValAux (acc : Nat) : Str → Nat
  | [] => acc
  | c :: cs => hexValAux (acc * 16 + hexVal c) cs

/-- Fuel-driven decimal rendering of a natural number (big-endian digits);
with fuel exceeding the number this is Python `str(n)`, because
`n / 10 < n` for `n ≥ 10` keeps the value below the remaining fuel. -/
def decDigitsAux : Nat → Nat → Str
  | 0, _ => []
  | f + 1, n =>
    if n < 10 then [Nat.digitChar n]
    else decDigitsAux f (n / 10) ++ [Nat.digitChar (n % 10)]

/-- Model of Python `str(n)` for a natural number. -/
def decStr (n : Nat) : Str := decDigitsAux (n + 1) n

/-- Fuel-driven lowercase hexadecimal rendering of a natural number; with
fuel at least the number itself this is Python `'%x' % n`. -/
def hexDigitsAux : Nat → Nat → Str
  | 0, _ => []
  | f + 1, n =>
    if n < 16 then [Nat.digitChar n]
    else hexDigitsAux f (n / 16) ++ [Nat.digitChar (n % 16)]

/-- Model of Python `'%x' % n` for a natural number. -/
def hexStr (n : Nat) : Str := hexDigitsAux (n + 1) n

theorem decDigitsAux_fuel (f₁ f₂ n : Nat) (h₁ : n < f₁) (h₂ : n < f₂) :
    decDigitsAux f₁ n = decDigitsAux f₂ n := by
  induction f₁ generalizing f₂ n with
  | zero => omega
  | succ f ih =>
    obtain ⟨g, rfl⟩ : ∃ g, f₂ = g + 1 := ⟨f₂ - 1, by omega⟩
    simp only [decDigitsAux]
    by_cases hn : n < 10
    · simp [hn]
    · rw [if_neg hn, if_neg hn]
      have hd : n / 10 < n := Nat.div_lt_self (by omega) (by omega)
      rw [ih g (n / 10) (by omega) (by omega)]

theorem decStr_eq (f n : Nat) (h : n < f) : decStr n = decDigitsAux f n :=
  decDigitsAux_fuel (n + 1) f n (by omega) h

theorem decStr_unfold (n : Nat) :
    decStr n = if n < 10 then [Nat.digitChar n]
               else decStr (n / 10) ++ [Nat.digitChar (n % 10)] := by
  show decDigitsAux (n + 1) n = _
  simp only [decDigitsAux]
  by_cases hn : n < 10
  · simp [hn]
  · rw [if_neg hn, if_neg hn]
    have hd : n / 10 < n := Nat.div_lt_self (by omega) (by omega)
    rw [decStr_eq n (n / 10) hd]

theorem hexDigitsAux_fuel (f₁ f₂ n : Nat) (h₁ : n < f₁) (h₂ : n < f₂) :
    hexDigitsAux f₁ n = hexDigitsAux f₂ n := by
  induction f₁ generalizing f₂ n with
  | zero => omega
  | succ f ih =>
    obtain ⟨g, rfl⟩ : ∃ g, f₂ = g + 1 := ⟨f₂ - 1, by omega⟩
    simp only [hexDigitsAux]
    by_cases hn : n < 16
    · simp [hn]
    · rw [if_neg hn, if_neg hn]
      have hd : n / 16 < n := Nat.div_lt_self (by omega) (by omega)
      rw [ih g (n / 16) (by omega) (by omega)]

theorem hexStr_eq (f n : Nat) (h : n < f) : hexStr n = hexDigitsAux f n :=
  hexDigitsAux_fuel (n + 1) f n (by omega) h

theorem hexStr_unfold (n : Nat) :
    hexStr n = if n < 16 then [Nat.digitChar n]
               else hexStr (n / 16) ++ [Nat.digitChar (n % 16)] := by
  show hexDigitsAux (n + 1) n = _
  simp only [hexDigitsAux]
  by_cases hn : n < 16
  · simp [hn]
  · rw [if_neg hn, if_neg hn]
    have hd : n / 16 < n := Nat.div_lt_self (by omega) (by omega)
    rw [hexStr_eq n (n / 16) hd]

theorem digitVal_digitChar : ∀ d < 10, digitVal (Nat.digitChar d) = d := by decide

theorem isDigitChar_digitChar : ∀ d < 10, isDigitChar (Nat.digitChar d) = true := by decide

theorem hexVal_digitChar : ∀ d < 16, hexVal (Nat.digitChar d) = d := by decide

theorem isHexChar_digitChar : ∀ d < 16, isHexChar (Nat.digitChar d) = true := by decide

theorem digitChar_ne_zero : ∀ d < 16, 1 ≤ d → Nat.digitChar d ≠ '0' := by decide

theorem isDigitChar_implies (c : Char) (h : isDigitChar c = true) :
    c ≠ '.' ∧ c ≠ ':' ∧ c ≠ '/' ∧ c ≠ '#' := by
  refine ⟨?_, ?_, ?_, ?_⟩ <;> rintro rfl <;> exact absurd h (by decide)

theorem isHexChar_implies (c : Char) (h : isHexChar c = true) :
    c ≠ '.' ∧ c ≠ ':' ∧ c ≠ '/' := by
  refine ⟨?_, ?_, ?_⟩ <;> rintro rfl <;> exact absurd h (by decide)

theorem decStr_ne_nil (n : Nat) : decStr n ≠ [] := by
  rw [decStr_unfold]
  split <;> simp

theorem decStr_all_digits (n : Nat) : (decStr n).all isDigitChar = true := by
  induction n using Nat.strong_induction_on with
  | _ n ih =>
    rw [decStr_unfold]
    by_cases hn : n < 10
    · simp [hn, isDigitChar_digitChar n hn]
    · rw [if_neg hn]
      have hd : n / 10 < n := Nat.div_lt_self (by omega) (by omega)
      rw [List.all_append]
      have h1 := ih _ hd
      have h2 := isDigitChar_digitChar (n % 10) (Nat.mod_lt _ (by omega))
      simp [h1, h2]

theorem decStr_length_le (k : Nat) : ∀ n, 1 ≤ k → n < 10 ^ k →
    (decStr n).length ≤ k := by
  induction k with
  | zero => intro n h; omega
  | succ k ih =>
    intro n _ hlt
    rw [decStr_unfold]
    by_cases hn : n < 10
    · simp [hn]
    · rw [if_neg hn]
      have hk : 1 ≤ k := by
        by_contra hk
        have : k = 0 := by omega
        subst this; simp at hlt; omega
      have : n / 10 < 10 ^ k := by
        rw [Nat.pow_succ] at hlt
        omega
      simp only [List.length_append, List.length_cons, List.length_nil]
      have := ih (n / 10) hk this
      omega

theorem decValAux_append (acc : Nat) (xs ys : Str) :
    decValAux acc (xs ++ ys) = decValAux (decValAux acc xs) ys := by
  induction xs generalizing acc with
  | nil => rfl
  | cons c cs ih =>
    show decValAux (acc * 10 + digitVal c) (cs ++ ys) = _
    exact ih _

theorem decValAux_decStr (acc n : Nat) :
    decValAux acc (decStr n) = acc * 10 ^ (decStr n).length + n := by
  induction n using Nat.strong_induction_on generalizing acc with
  | _ n ih =>
    rw [decStr_unfold]
    by_cases hn : n < 10
    · rw [if_pos hn]
      show decValAux (acc * 10 + digitVal (Nat.digitChar n)) [] = _
      show acc * 10 + digitVal (Nat.digitChar n) = _
      rw [digitVal_digitChar n hn]
      simp
    · rw [if_neg hn]
      have hd : n / 10 < n := Nat.div_lt_self (by omega) (by omega)
      rw [decValAux_append, ih _ hd]
      show decValAux ((acc * 10 ^ (decStr (n / 10)).length + n / 10) * 10
          + digitVal (Nat.digitChar (n % 10))) [] = _
      show (acc * 10 ^ (decStr (n / 10)).length + n / 10) * 10
          + digitVal (Nat.digitChar (n % 10)) = _
      rw [digitVal_digitChar (n % 10) (Nat.mod_lt _ (by omega))]
      have h3 : (decStr (n / 10) ++ [Nat.digitChar (n % 10)]).length
          = (decStr (n / 10)).length + 1 := by simp
      rw [h3, pow_succ, ← mul_assoc]
      generalize acc * 10 ^ (decStr (n / 10)).length = A
      omega

theorem decVal_decStr (n : Nat) : decValAux 0 (decStr n) = n := by
  simpa using decValAux_decStr 0 n

theorem decStr_headD_ne_zero (n : Nat) (h : 1 ≤ n) : (decStr n).headD ' ' ≠ '0' := by
  induction n using Nat.strong_induction_on with
  | _ n ih =>
    rw [decStr_unfold]
    by_cases hn : n < 10
    · simpa [hn] using digitChar_ne_zero n (by omega) h
    · rw [if_neg hn]
      have hd : n / 10 < n := Nat.div_lt_self (by omega) (by omega)
      have h1 : 1 ≤ n / 10 := by
        have := Nat.div_le_div_right (c := 10) (show 10 ≤ n by omega)
        simpa using this
      have hne := decStr_ne_nil (n / 10)
      cases hds : decStr (n / 10) with
      | nil => exact absurd hds hne
      | cons a as =>
        have := ih _ hd h1
        rw [hds] at this
        simpa using this

theorem decStr_eq_zero_iff (n : Nat) : decStr n = ['0'] ↔ n = 0 := by
  constructor
  · intro h
    by_contra hn
    have := decStr_headD_ne_zero n (by omega)
    rw [h] at this
    simp at this
  · rintro rfl; decide

theorem hexStr_ne_nil (n : Nat) : hexStr n ≠ [] := by
  rw [hexStr_unfold]
  split <;> simp

theorem hexStr_all_hex (n : Nat) : (hexStr n).all isHexChar = true := by
  induction n using Nat.strong_induction_on with
  | _ n ih =>
    rw [hexStr_unfold]
    by_cases hn : n < 16
    · simp [hn, isHexChar_digitChar n hn]
    · rw [if_neg hn]
      have hd : n / 16 < n := Nat.div_lt_self (by omega) (by omega)
      rw [List.all_append] at *
      have h1 := ih _ hd
      have h2 := isHexChar_digitChar (n % 16) (Nat.mod_lt _ (by omega))
      simp [h1, h2]

theorem hexStr_length_le (k : Nat) : ∀ n, 1 ≤ k → n < 16 ^ k →
    (hexStr n).length ≤ k := by
  induction k with
  | zero => intro n h; omega
  | succ k ih =>
    intro n _ hlt
    rw [hexStr_unfold]
    by_cases hn : n < 16
    · simp [hn]
    · rw [if_neg hn]
      have hk : 1 ≤ k := by
        by_contra hk
        have : k = 0 := by omega
        subst this; simp at hlt; omega
      have : n / 16 < 16 ^ k := by
        rw [Nat.pow_succ] at hlt
        omega
      simp only [List.length_append, List.length_cons, List.length_nil]
      have := ih (n / 16) hk this
      omega

theorem hexValAux_append (acc : Nat) (xs ys : Str) :
    hexValAux acc (xs ++ ys) = hexValAux (hexValAux acc xs) ys := by
  induction xs generalizing acc with
  | nil => rfl
  | cons c cs ih =>
    show hexValAux (acc * 16 + hexVal c) (cs ++ ys) = _
    exact ih _

theorem hexValAux_hexStr (acc n : Nat) :
    hexValAux acc (hexStr n) = acc * 16 ^ (hexStr n).length + n := by
  induction n using Nat.strong_induction_on generalizing acc with
  | _ n ih =>
    rw [hexStr_unfold]
    by_cases hn : n < 16
    · rw [if_pos hn]
      show hexValAux (acc * 16 + hexVal (Nat.digitChar n)) [] = _
      show acc * 16 + hexVal (Nat.digitChar n) = _
      rw [hexVal_digitChar n hn]
      simp
    · rw [if_neg hn]
      have hd : n / 16 < n := Nat.div_lt_self (by omega) (by omega)
      rw [hexValAux_append, ih _ hd]
      show hexValAux ((acc * 16 ^ (hexStr (n / 16)).length + n / 16) * 16
          + hexVal (Nat.digitChar (n % 16))) [] = _
      show (acc * 16 ^ (hexStr (n / 16)).length + n / 16) * 16
          + hexVal (Nat.digitChar (n % 16)) = _
      rw [hexVal_digitChar (n % 16) (Nat.mod_lt _ (by omega))]
      have h3 : (hexStr (n / 16) ++ [Nat.digitChar (n % 16)]).length
          = (hexStr (n / 16)).length + 1 := by simp
      rw [h3, pow_succ, ← mul_assoc]
      generalize acc * 16 ^ (hexStr (n / 16)).length = A
      omega

theorem hexVal_hexStr (n : Nat) : hexValAux 0 (hexStr n) = n := by
  simpa using hexValAux_hexStr 0 n

theorem hexStr_eq_zero_iff (n : Nat) : hexStr n = ['0'] ↔ n = 0 := by
  constructor
  · intro h
    by_cases hn : n < 16
    · rw [hexStr_unfold, if_pos hn] at h
      have hd : Nat.digitChar n = '0' := by simpa using h
      by_contra hz
      exact digitChar_ne_zero n hn (by omega) hd
    · rw [hexStr_unfold, if_neg hn] at h
      have h1 := hexStr_ne_nil (n / 16)
      have := congrArg List.length h
      simp only [List.length_append, List.length_cons, List.length_nil,
        List.length_singleton] at this
      cases hds : hexStr (n / 16) with
      | nil => exact absurd hds h1
      | cons a as => rw [hds] at this; simp at this
  · rintro rfl; decide

/-- Model of CPython `ipaddress._parse_octet` (IPv4 dotted-quad octet):
non-empty, decimal digits only, at most 3 characters, no leading zeros,
value at most 255. -/
def parseOctet (s : Str) : Option Nat :=
  if s = [] then none
  else if ¬ s.all isDigitChar then none
  else if s.length > 3 then none
  else if s ≠ ['0'] ∧ s.headD ' ' = '0' then none
  else if decValAux 0 s > 255 then none
  else some (decValAux 0 s)

/-- Model of CPython `IPv4Address._ip_int_from_string`: exactly four octets
joined by dots, assembled big-endian (`int.from_bytes`). -/
def parseIPv4Addr (s : Str) : Option Nat :=
  match splitOnChar '.' s with
  | [a, b, c, d] =>
    match parseOctet a, parseOctet b, parseOctet c, parseOctet d with
    | some x, some y, some z, some w =>
      some (((x * 256 + y) * 256 + z) * 256 + w)
    | _, _, _, _ => none
  | _ => none

/-- Model of CPython `IPv6Address._parse_hextet`: hex digits only, at most
4 characters (`int(s, 16)` also rejects the empty string). -/
def parseHextet (s : Str) : Option Nat :=
  if ¬ s.all isHexChar then none
  else if s.length > 4 then none
  else if s = [] then none
  else some (hexValAux 0 s)

/-- Indices (starting at the given offset, matching Python
`range(1, len(parts) - 1)`) of the empty strings in a list of parts. -/
def emptyIdxs : List Str → Nat → List Nat
  | [], _ => []
  | p :: ps, i => (if p = [] then [i] else []) ++ emptyIdxs ps (i + 1)

/-- The CPython hextet accumulation loop `ip_int <<= 16;
ip_int |= parse_hextet(...)`; since the hextet value is below 2^16 the
shift-or equals `acc * 65536 + value`. -/
def hextetsFoldVal (acc : Nat) : List Str → Option Nat
  | [] => some acc
  | p :: ps =>
    match parseHextet p with
    | none => none
    | some v => hextetsFoldVal (acc * 65536 + v) ps

/-- Model of CPython `IPv6Address._ip_int_from_string` (without the
IPv4-embedded trailing form and without zone ids, which the model rejects):
split on ':', locate the single `::` (an empty middle part), validate the
leading/trailing parts, and fold the hextets around the zero gap. -/
def parseIPv6Addr (s : Str) : Option Nat :=
  let parts := splitOnChar ':' s
  if parts.length < 3 then none
  else if parts.length > 9 then none
  else
    match emptyIdxs ((parts.drop 1).dropLast) 1 with
    | [] =>
      if parts.length ≠ 8 then none
      else if parts.headD [] = [] then none
      else if parts.getLastD [] = [] then none
      else hextetsFoldVal 0 parts
    | [i] =>
      match (if parts.headD [] = [] then (if i = 1 then some 0 else none)
             else some i : Option Nat),
            (if parts.getLastD [] = [] then
               (if parts.length - i - 1 = 1 then some 0 else none)
             else some (parts.length - i - 1) : Option Nat) with
      | some hi, some lo =>
        if 8 - (hi + lo) < 1 then none
        else
          match hextetsFoldVal 0 (parts.take hi) with
          | none => none
          | some v1 =>
            hextetsFoldVal (v1 * 65536 ^ (8 - (hi + lo)))
              (parts.drop (parts.length - lo))
      | _, _ => none
    | _ => none

/-- A parsed IP network: a Python `IPv4Network` / `IPv6Network` value,
reduced to the network address integer and the prefix length. -/
inductive IPNetwork where
  | v4 (addr : Nat) (plen : Nat)
  | v6 (addr : Nat) (plen : Nat)
deriving DecidableEq

def IPNetwork.isV4 : IPNetwork → Bool
  | .v4 _ _ => true
  | .v6 _ _ => false

def IPNetwork.isV6 : IPNetwork → Bool
  | .v4 _ _ => false
  | .v6 _ _ => true

def IPNetwork.bitSize : IPNetwork → Nat
  | .v4 _ _ => 32
  | .v6 _ _ => 128

def IPNetwork.addr : IPNetwork → Nat
  | .v4 a _ => a
  | .v6 a _ => a

def IPNetwork.plen : IPNetwork → Nat
  | .v4 _ p => p
  | .v6 _ p => p

/-- Model of CPython `_prefix_from_prefix_string`: decimal digits only
(`int` accepts leading zeros here), value within `0..maxlen`. -/
def parsePrefixLen (maxlen : Nat) (s : Str) : Option Nat :=
  if s = [] then none
  else if ¬ s.all isDigitChar then none
  else if decValAux 0 s ≤ maxlen then some (decValAux 0 s)
  else none

/-- Network construction as in `IPv4Network.__init__` / `IPv6Network.__init__`:
with `strict=True` host bits must be zero, with `strict=False` they are
masked away.  `a % 2 ^ (size - p)` is the host-bit value, and
`a - a % 2 ^ (size - p)` is the address masked with the netmask. -/
def mkNetwork (strict : Bool) (size : Nat) (a p : Nat)
    (mk : Nat → Nat → IPNetwork) : Option IPNetwork :=
  if strict then
    if a % 2 ^ (size - p) = 0 then some (mk a p) else none
  else some (mk (a - a % 2 ^ (size - p)) p)

/-- The `IPv4Network(s)` attempt inside `ip_network`: parse the address
part, the optional prefix part (default 32), and apply strictness. -/
def tryV4 (strict : Bool) (addr : Str) (ps : Option Str) : Option IPNetwork :=
  match parseIPv4Addr addr with
  | none => none
  | some a =>
    match ps with
    | none => mkNetwork strict 32 a 32 .v4
    | some pstr =>
      match parsePrefixLen 32 pstr with
      | none => none
      | some p => mkNetwork strict 32 a p .v4

/-- The `IPv6Network(s)` attempt inside `ip_network`: parse the address
part, the optional prefix part (default 128), and apply strictness. -/
def tryV6 (strict : Bool) (addr : Str) (ps : Option Str) : Option IPNetwork :=
  match parseIPv6Addr addr with
  | none => none
  | some a =>
    match ps with
    | none => mkNetwork strict 128 a 128 .v6
    | some pstr =>
      match parsePrefixLen 128 pstr with
      | none => none
      | some p => mkNetwork strict 128 a p .v6

/-- Model of Python `ipaddress.ip_network(line, strict)`: split off the
prefix part (`_split_addr_prefix`, at most one '/'), then try
`IPv4Network` and fall back to `IPv6Network`. -/
def ipNetwork (strict : Bool) (s : Str) : Option IPNetwork :=
  match splitOnChar '/' s with
  | [addr] =>
    (match tryV4 strict addr none with
     | some nw => some nw
     | none => tryV6 strict addr none)
  | [addr, pstr] =>
    (match tryV4 strict addr (some pstr) with
     | some nw => some nw
     | none => tryV6 strict addr (some pstr))
  | _ => none

/-- Octet decomposition used by `str(IPv4Address)` (`a.packed` rendered
big-endian; shifts and masks written as division and remainder). -/
def v4AddrStr (a : Nat) : Str :=
  decStr (a / 16777216 % 256) ++ '.' :: decStr (a / 65536 % 256)
    ++ '.' :: decStr (a / 256 % 256) ++ '.' :: decStr (a % 256)

/-- The eight 16-bit groups of an IPv6 address, big-endian, as read off by
`_string_from_ip_int` (`(ip_int >> shift) & 0xFFFF`). -/
def toHextetVals (a : Nat) : List Nat :=
  [a / 2 ^ 112 % 65536, a / 2 ^ 96 % 65536, a / 2 ^ 80 % 65536,
   a / 2 ^ 64 % 65536, a / 2 ^ 48 % 65536, a / 2 ^ 32 % 65536,
   a / 2 ^ 16 % 65536, a % 65536]

/-- The state walk of CPython `_compress_hextets`: track the current run of
`"0"` groups and the best run seen so far; the first longest run wins
because the best is only replaced by a strictly longer run. -/
def bestRunLoop : Nat → Option Nat → Nat → Option Nat → Nat → List Str →
    Option Nat × Nat
  | _, bs, bl, _, _, [] => (bs, bl)
  | idx, bs, bl, cs, cl, h :: t =>
    if h = ['0'] then
      let cs' := match cs with | none => some idx | some s => some s
      let cl' := cl + 1
      if cl' > bl then bestRunLoop (idx + 1) cs' cl' cs' cl' t
      else bestRunLoop (idx + 1) bs bl cs' cl' t
    else bestRunLoop (idx + 1) bs bl none 0 t

/-- Model of CPython `_compress_hextets`: replace the first longest run of
at least two `"0"` groups by an empty part, adding one more empty part when
the run touches the very start or end so that joining with ':' yields `::`. -/
def compressHextets (hextets : List Str) : List Str :=
  match bestRunLoop 0 none 0 none 0 hextets with
  | (some s, bl) =>
    if bl > 1 then
      let e := s + bl
      let base := if e = hextets.length then hextets ++ [[]] else hextets
      let spliced := base.take s ++ [] :: base.drop e
      if s = 0 then [] :: spliced else spliced
    else hextets
  | (none, _) => hextets

/-- Model of `str(IPv6Address)`: lowercase hex groups with the best zero
run compressed, joined with ':'. -/
def v6AddrStr (a : Nat) : Str :=
  joinWith ':' (compressHextets ((toHextetVals a).map hexStr))

/-- Model of `str(IPv4Network)` and `str(IPv6Network)`:
the address followed by `'/'` and the prefix length. -/
def networkStr : IPNetwork → Str
  | .v4 a p => v4AddrStr a ++ '/' :: decStr p
  | .v6 a p => v6AddrStr a ++ '/' :: decStr p


/-- The script log level enumeration (`ScriptLogLevel` in
generate_script.py; the identical `Settings.Script.LogLevel` in
__main__.py). -/
inductive ScriptLogLevel where
  | debug
  | info
  | warning
  | error
deriving DecidableEq

/-- The `.value` string of a log level. -/
def ScriptLogLevel.value : ScriptLogLevel → Str
  | .debug => "debug".data
  | .info => "info".data
  | .warning => "warning".data
  | .error => "error".data

/-- The per-script generation options: the keyword parameters of
`generate_script` in generate_script.py, equally the fields of
`Settings.Script` in __main__.py.  `force` only affects download
overwriting and output writing, not generation.  Python's `int | None`
timeout is modelled as `Option Nat` (no claim involves negative values). -/
structure ScriptOptions where
  list_name : Str
  header : Option (List Str)
  comment : Option Str
  timeout : Option Nat
  script_log_level : ScriptLogLevel
  no_catch_errors : Bool
  no_ipv4 : Bool
  no_ipv6 : Bool
  dynamic : Bool
  disabled : Bool

/-- Python truthiness of an optional string (`if comment:`): `None` and
the empty string are falsy. -/
def truthyStr : Option Str → Bool
  | none => false
  | some s => !s.isEmpty

/-- Python truthiness of an optional integer (`if timeout:`): `None` and
`0` are falsy. -/
def truthyNat : Option Nat → Bool
  | none => false
  | some n => n != 0

/-- What the body loop does with one raw input line (lines 57-101 of
generate_script.py; lines 168-212 of __main__.py). -/
inductive LineOutcome where
  | skippedBlankOrComment
  | parseFailure
  | familySkip (nw : IPNetwork)
  | accepted (nw : IPNetwork)
deriving DecidableEq

/-- One loop step: strip the line, skip blanks and `#` comments, parse via
`ip_network`, then apply the address-family filters. -/
def classifyLine (strict : Bool) (o : ScriptOptions) (raw : Str) : LineOutcome :=
  let line := pyStrip raw
  if line = [] then .skippedBlankOrComment
  else if line.headD ' ' = '#' then .skippedBlankOrComment
  else
    match ipNetwork strict line with
    | none => .parseFailure
    | some nw =>
      if nw.isV4 && o.no_ipv4 then .familySkip nw
      else if nw.isV6 && o.no_ipv6 then .familySkip nw
      else .accepted nw

/-- The accepted `(line number, network)` pairs in input order, numbering
lines from the given 1-based index as Python `enumerate` plus one does. -/
def acceptedFrom (strict : Bool) (o : ScriptOptions) : Nat → List Str →
    List (Nat × IPNetwork)
  | _, [] => []
  | no, l :: ls =>
    match classifyLine strict o l with
    | .accepted nw => (no, nw) :: acceptedFrom strict o (no + 1) ls
    | _ => acceptedFrom strict o (no + 1) ls

/-- The accepted entries of the whole input. -/
def acceptedEntries (strict : Bool) (o : ScriptOptions) (lines : List Str) :
    List (Nat × IPNetwork) :=
  acceptedFrom strict o 1 lines

/-- The 1-based numbers of the lines whose `ip_network` call fails (each
produces the `logger.error` message of line 69 / line 180 and nothing
else). -/
def parseErrorsFrom (strict : Bool) (o : ScriptOptions) : Nat → List Str →
    List Nat
  | _, [] => []
  | no, l :: ls =>
    match classifyLine strict o l with
    | .parseFailure => no :: parseErrorsFrom strict o (no + 1) ls
    | _ => parseErrorsFrom strict o (no + 1) ls

/-- The parse-failure line numbers of the whole input. -/
def parseErrorLines (strict : Bool) (o : ScriptOptions) (lines : List Str) :
    List Nat :=
  parseErrorsFrom strict o 1 lines

/-- The `(line number, network)` pairs dropped by the address-family
filters (each produces only the `logger.debug` message of line 74 / 77). -/
def familySkipsFrom (strict : Bool) (o : ScriptOptions) : Nat → List Str →
    List (Nat × IPNetwork)
  | _, [] => []
  | no, l :: ls =>
    match classifyLine strict o l with
    | .familySkip nw => (no, nw) :: familySkipsFrom strict o (no + 1) ls
    | _ => familySkipsFrom strict o (no + 1) ls

/-- The family-filtered entries of the whole input. -/
def familySkips (strict : Bool) (o : ScriptOptions) (lines : List Str) :
    List (Nat × IPNetwork) :=
  familySkipsFrom strict o 1 lines

/-- The running `script_entry_count`: incremented exactly when a statement
is emitted (line 101 / line 212). -/
def scriptEntryCount (strict : Bool) (o : ScriptOptions) : List Str → Nat
  | [] => 0
  | l :: ls =>
    (match classifyLine strict o l with
     | .accepted _ => 1
     | _ => 0) + scriptEntryCount strict o ls

/-- The bare `add` statement with its attributes (lines 85-97): `address`
and `list` always; `comment` and `timeout` when truthy; `dynamic` and
`disabled` always with an explicit yes/no. -/
def addStmtStr (o : ScriptOptions) (nw : IPNetwork) : Str :=
  "add address=\x22".data ++ networkStr nw ++ "\x22 list=\x22".data
    ++ o.list_name ++ "\x22".data
  ++ (if truthyStr o.comment then
        " comment=\x22".data ++ o.comment.getD [] ++ "\x22".data else [])
  ++ (if truthyNat o.timeout then
        " timeout=\x22".data ++ decStr (o.timeout.getD 0) ++ "s\x22".data
      else [])
  ++ (if o.dynamic then " dynamic=yes".data else " dynamic=no".data)
  ++ (if o.disabled then " disabled=yes".data else " disabled=no".data)

/-- The per-entry success log appended unconditionally after the `add`
statement (line 98 / line 209). -/
def successLogStr (o : ScriptOptions) (no lineCount : Nat)
    (nw : IPNetwork) : Str :=
  "; :log ".data ++ o.script_log_level.value ++ " \x22[".data ++ decStr no
    ++ "/".data ++ decStr lineCount ++ "] Added address \x27".data
    ++ networkStr nw ++ "\x27 to list \x27".data ++ o.list_name
    ++ "\x27\x22".data

/-- The catch branch appended when errors are caught (lines 99-100). -/
def skipLogStr (o : ScriptOptions) (no lineCount : Nat)
    (nw : IPNetwork) : Str :=
  " \x7d do=\x7b :log ".data ++ o.script_log_level.value ++ " \x22[".data
    ++ decStr no ++ "/".data ++ decStr lineCount
    ++ "] Skipped adding address \x27".data ++ networkStr nw
    ++ "\x27 to list \x27".data ++ o.list_name
    ++ "\x27 because entry already exists\x22; \x7d  error=cnt".data

/-- The full statement emitted for one accepted entry (lines 82-100): the
`:onerror in={ ` opener when errors are caught, the `add` statement, the
success log, and the catch branch when errors are caught. -/
def entryStr (o : ScriptOptions) (no lineCount : Nat) (nw : IPNetwork) : Str :=
  (if !o.no_catch_errors then ":onerror in=\x7b ".data else [])
    ++ addStmtStr o nw ++ successLogStr o no lineCount nw
    ++ (if !o.no_catch_errors then skipLogStr o no lineCount nw else [])

/-- The opening `:log` line of the body (line 46). -/
def headLine (o : ScriptOptions) : Str :=
  ":log ".data ++ o.script_log_level.value
    ++ " \x22Updating address list \x27".data ++ o.list_name
    ++ "\x27 ...\x22".data

/-- The context-switch line of the body (line 47). -/
def nsLine : Str := "/ip/firewall/address-list".data

/-- The closing `:log` line reporting the entry count (line 102). -/
def footerLine (o : ScriptOptions) (cnt : Nat) : Str :=
  ":log ".data ++ o.script_log_level.value
    ++ " \x22Finished updating address list \x27".data ++ o.list_name
    ++ "\x27 with ".data ++ decStr cnt ++ " entries.\x22".data

/-- The emitted statements of the body, one per accepted entry
(`line_count` is the pre-counted total number of input lines). -/
def bodyAddLines (strict : Bool) (o : ScriptOptions) (lines : List Str) :
    List Str :=
  (acceptedEntries strict o lines).map (fun e => entryStr o e.1 lines.length e.2)

/-- The `script_body` string (lines 46-102): opening log line, context
line, one statement per accepted entry, and the footer, joined by newlines
exactly as the `script_body += "\n" + ...` concatenation produces. -/
def scriptBodyGen (strict : Bool) (o : ScriptOptions) (lines : List Str) : Str :=
  joinWith '\n' ([headLine o, nsLine] ++ bodyAddLines strict o lines
    ++ [footerLine o (scriptEntryCount strict o lines)])

/-- The body of the generate_script.py revision (strict parsing). -/
def scriptBody (o : ScriptOptions) (lines : List Str) : Str :=
  scriptBodyGen true o lines

/-- The body of the __main__.py revision (`strict=False` parsing). -/
def scriptBodyMain (o : ScriptOptions) (lines : List Str) : Str :=
  scriptBodyGen false o lines

/-- The raw header lines of generate_script.py (lines 105-112): title
line, timestamp, list name, entry count, then the stripped caller-supplied
extra lines (`if header:` is Python truthiness).  The header fields are
assumed newline-free, so the joined string splits back into exactly these
lines. -/
def rawHeaderLines (bt bv now : Str) (o : ScriptOptions) (cnt : Nat) :
    List Str :=
  ["Generated script for Mikrotik RouterOS by ".data ++ bt
     ++ " v".data ++ bv,
   now, o.list_name, decStr cnt]
  ++ (match o.header with
      | some hs => if hs.isEmpty then [] else hs.map pyStrip
      | none => [])

/-- Python `max(len(line) for line in lines)` (the header always has at
least four lines, so the empty-list default is never hit). -/
def maxLen (ls : List Str) : Nat := ls.foldr (fun l m => max l.length m) 0

/-- Python `s.ljust(w, c)`. -/
def ljust (s : Str) (w : Nat) (c : Char) : Str :=
  s ++ List.replicate (w - s.length) c

/-- The label-dotting pass over the header (lines 115-121): the
`Date:` / `Address: List` / `Entries:` labels are dot-padded against the
longest line of the previous stage and glued to their values. -/
def headerStage2 (hl : List Str) : List Str :=
  let M := maxLen hl
  [hl.headD [],
   ljust "Date: ".data (M - (hl.getD 1 []).length - 1) '.'
     ++ ' ' :: hl.getD 1 [],
   ljust "Address: List ".data (M - (hl.getD 2 []).length - 1) '.'
     ++ ' ' :: hl.getD 2 [],
   ljust "Entries: ".data (M - (hl.getD 3 []).length - 1) '.'
     ++ ' ' :: hl.getD 3 []]
  ++ hl.drop 4

/-- One boxed content row of the header. -/
def boxRow (M : Nat) (l : Str) : Str :=
  "# ║ ".data ++ ljust (pyStrip l) M ' ' ++ " ║".data

/-- One horizontal frame row of the header box. -/
def frameRow (M : Nat) (lc rc : Char) : Str :=
  "# ".data ++ lc :: List.replicate (M + 2) '═' ++ [rc]

/-- The box-drawing pass over the header (lines 124-132). -/
def headerStage3 (m : List Str) : List Str :=
  let M := maxLen m
  [frameRow M '╔' '╗', boxRow M (m.headD [])]
  ++ [frameRow M '╠' '╣']
  ++ ((m.drop 1).take 3).map (boxRow M)
  ++ [frameRow M '╠' '╣']
  ++ (m.drop 4).map (boxRow M)
  ++ [frameRow M '╚' '╝']

/-- The rendered `script_header` of generate_script.py (lines 105-132). -/
def scriptHeaderStr (bt bv now : Str) (o : ScriptOptions) (cnt : Nat) : Str :=
  joinWith '\n' (headerStage3 (headerStage2 (rawHeaderLines bt bv now o cnt)))

/-- The full generated script (line 134): header, blank line, body.  The
wall-clock timestamp `datetime.now().strftime(...)` is the explicit input
`now`; the branding strings come from the settings singleton. -/
def generateScript (bt bv now : Str) (o : ScriptOptions)
    (lines : List Str) : Str :=
  scriptHeaderStr bt bv now o (scriptEntryCount true o lines)
    ++ '\n' :: '\n' :: scriptBody o lines

/-- The generator-level error kinds named by the specification:
`InputError` is the `ValueError` of line 37, `SourceNotFoundError` the
missing/irregular source file (the explicit `is_file` guard of
lines 154-155 of __main__.py; in generate_script.py the same condition
surfaces as the failure of `open()`), and `DownloadError` the
`FileNotFoundError` of line 44 when the download fails. -/
inductive GenError where
  | inputError
  | sourceNotFoundError
  | downloadError
deriving DecidableEq

/-- The file system visible to the generator: whether a path names a
regular file, and the input lines its content yields when iterated. -/
structure FileSys where
  isFile : Str → Bool
  content : Str → List Str

/-- Source resolution (lines 35-44): with neither file nor URL raise
`ValueError`; with a URL only, download to a temporary path or fail. -/
def resolveSource (download : Str → Option Str) (file url : Option Str) :
    Except GenError Str :=
  match file with
  | some p => .ok p
  | none =>
    match url with
    | none => .error .inputError
    | some u =>
      match download u with
      | some p => .ok p
      | none => .error .downloadError

/-- Generation from a resolved path: the `source.is_file()` guard and then
the pure generation over the file content. -/
def generateFromPath (fs : FileSys) (bt bv now : Str) (o : ScriptOptions)
    (p : Str) : Except GenError Str :=
  if fs.isFile p then .ok (generateScript bt bv now o (fs.content p))
  else .error .sourceNotFoundError

/-- The whole generator entry point: resolve the source, then generate. -/
def generateFull (fs : FileSys) (download : Str → Option Str)
    (bt bv now : Str) (o : ScriptOptions) (file url : Option Str) :
    Except GenError Str :=
  match resolveSource download file url with
  | .error e => .error e
  | .ok p => generateFromPath fs bt bv now o p

/-- Whether `needle` occurs as a contiguous substring of `hay`. -/
def containsSub : Str → Str → Bool
  | [], needle => needle.isEmpty
  | c :: t, needle => needle.isPrefixOf (c :: t) || containsSub t needle

theorem scriptEntryCount_eq_length (strict : Bool) (o : ScriptOptions)
    (ls : List Str) : ∀ no, scriptEntryCount strict o ls
      = (acceptedFrom strict o no ls).length := by
  induction ls with
  | nil => intro no; rfl
  | cons l ls ih =>
    intro no
    cases h : classifyLine strict o l <;>
      simp only [scriptEntryCount, acceptedFrom, h, List.length_cons] <;>
      rw [ih (no + 1)] <;> omega

theorem counted_partition (strict : Bool) (o : ScriptOptions)
    (lines : List Str) : ∀ no,
    (acceptedFrom strict o no lines).length
      + (parseErrorsFrom strict o no lines).length
      + (familySkipsFrom strict o no lines).length ≤ lines.length := by
  induction lines with
  | nil =>
    intro no
    simp [acceptedFrom, parseErrorsFrom, familySkipsFrom]
  | cons l ls ih =>
    intro no
    have h1 := ih (no + 1)
    cases h : classifyLine strict o l <;>
      simp only [acceptedFrom, parseErrorsFrom, familySkipsFrom, h,
        List.length_cons] <;> omega

/-- Claim C2: for every input file, the entry count reported in the footer
log statement and in the header block equals the number of `add`
statements emitted in the body; parse failures and family-excluded lines
occupy separate line slots and are never counted. -/
theorem c2_count_consistent (o : ScriptOptions) (lines : List Str)
    (bt bv now : Str) :
    scriptEntryCount true o lines = (bodyAddLines true o lines).length ∧
    scriptBody o lines = joinWith '\n' ([headLine o, nsLine]
      ++ bodyAddLines true o lines
      ++ [footerLine o ((bodyAddLines true o lines).length)]) ∧
    (rawHeaderLines bt bv now o (scriptEntryCount true o lines)).getD 3 []
      = decStr ((bodyAddLines true o lines).length) ∧
    (bodyAddLines true o lines).length + (parseErrorLines true o lines).length
      + (familySkips true o lines).length ≤ lines.length := by
  have hlen : scriptEntryCount true o lines = (bodyAddLines true o lines).length := by
    rw [bodyAddLines, List.length_map]
    exact scriptEntryCount_eq_length true o lines 1
  refine ⟨hlen, ?_, ?_, ?_⟩
  · rw [scriptBody, scriptBodyGen, hlen]
  · rw [rawHeaderLines, hlen]
    rfl
  · rw [← hlen, scriptEntryCount_eq_length true o lines 1]
    exact counted_partition true o lines 1

/-- A member of the accepted-entry list comes from a line classified as
accepted with that network. -/
theorem acceptedFrom_mem_classify (strict : Bool) (o : ScriptOptions)
    (lines : List Str) : ∀ no e, e ∈ acceptedFrom strict o no lines →
    ∃ l, classifyLine strict o l = .accepted e.2 := by
  induction lines with
  | nil =>
    intro no e he
    simp [acceptedFrom] at he
  | cons l ls ih =>
    intro no e he
    cases hc : classifyLine strict o l with
    | accepted nw =>
      rw [acceptedFrom, hc] at he
      rcases List.mem_cons.mp he with h | h
      · refine ⟨l, ?_⟩
        rw [h]
        exact hc
      · exact ih _ _ h
    | skippedBlankOrComment =>
      rw [acceptedFrom, hc] at he
      exact ih _ _ he
    | parseFailure =>
      rw [acceptedFrom, hc] at he
      exact ih _ _ he
    | familySkip nw =>
      rw [acceptedFrom, hc] at he
      exact ih _ _ he

/-- An accepted classification means both family filters let the network
through. -/
theorem classify_accepted_filters (o : ScriptOptions) (l : Str)
    (nw : IPNetwork) (h : classifyLine true o l = .accepted nw) :
    (nw.isV4 && o.no_ipv4) = false ∧ (nw.isV6 && o.no_ipv6) = false := by
  unfold classifyLine at h
  dsimp only at h
  split at h
  · cases h
  · split at h
    · cases h
    · split at h
      · cases h
      · split at h
        · cases h
        · split at h
          · cases h
          · rename_i hA hB
            cases h
            exact ⟨by simpa using hA, by simpa using hB⟩

/-- Claim C4: with `noIPv4` set no emitted `add` statement references an
IPv4 network (symmetrically for `noIPv6`), and a line parsing to a
filtered family is classified as a silent family skip (debug log only),
producing no statement and no parse error. -/
theorem c4_family_filters (o : ScriptOptions) (lines : List Str) :
    (o.no_ipv4 = true → ∀ e ∈ acceptedEntries true o lines,
      (e.2).isV4 = false) ∧
    (o.no_ipv6 = true → ∀ e ∈ acceptedEntries true o lines,
      (e.2).isV6 = false) ∧
    (∀ l nw, pyStrip l ≠ [] → (pyStrip l).headD ' ' ≠ '#' →
      ipNetwork true (pyStrip l) = some nw →
      ((nw.isV4 && o.no_ipv4) || (nw.isV6 && o.no_ipv6)) = true →
      classifyLine true o l = .familySkip nw) := by
  refine ⟨?_, ?_, ?_⟩
  · intro h4 e he
    obtain ⟨l, hl⟩ := acceptedFrom_mem_classify true o lines 1 e he
    have := (classify_accepted_filters o l e.2 hl).1
    rw [h4] at this
    simpa using this
  · intro h6 e he
    obtain ⟨l, hl⟩ := acceptedFrom_mem_classify true o lines 1 e he
    have := (classify_accepted_filters o l e.2 hl).2
    rw [h6] at this
    simpa using this
  · intro l nw h1 h2 hp hOr
    unfold classifyLine
    dsimp only
    rw [if_neg h1, if_neg h2, hp]
    rcases Bool.or_eq_true_iff.mp hOr with h | h
    · simp only [h]
      rfl
    · by_cases h4 : (nw.isV4 && o.no_ipv4) = true
      · simp only [h4]
        rfl
      · rw [Bool.not_eq_true] at h4
        simp only [h4, h]
        rfl

/-- Claim C8: the generator is deterministic up to the timestamp: equal
input lines, equal option values, equal branding strings and an equal
(fixed) timestamp produce byte-identical output. -/
theorem c8_deterministic (bt₁ bv₁ now₁ bt₂ bv₂ now₂ : Str)
    (o₁ o₂ : ScriptOptions) (l₁ l₂ : List Str)
    (hbt : bt₁ = bt₂) (hbv : bv₁ = bv₂) (hnow : now₁ = now₂)
    (ho : o₁ = o₂) (hl : l₁ = l₂) :
    generateScript bt₁ bv₁ now₁ o₁ l₁ = generateScript bt₂ bv₂ now₂ o₂ l₂ := by
  rw [hbt, hbv, hnow, ho, hl]

/-- Witness for C8 at a concrete request. -/
theorem c8_deterministic_witness :
    generateScript "t".data "1".data "01.01.2026 - 00:00:00".data
      ⟨"block".data, none, none, none, .debug, false, false, false, false,
        false⟩ ["10.0.0.0/24".data]
    = generateScript "t".data "1".data "01.01.2026 - 00:00:00".data
      ⟨"block".data, none, none, none, .debug, false, false, false, false,
        false⟩ ["10.0.0.0/24".data] :=
  c8_deterministic _ _ _ _ _ _ _ _ _ _ rfl rfl rfl rfl rfl

/-- Claim C9: an empty-string comment and a zero timeout are each treated
as unset (Python truthiness): the emitted statements equal those produced
with the field unset, and the `add` statement carries neither a `comment`
nor a `timeout` attribute. -/
theorem c9_falsy_unset (o : ScriptOptions) (no cnt : Nat) (nw : IPNetwork)
    (h1 : o.comment = some []) (h2 : o.timeout = some 0) :
    entryStr o no cnt nw
      = entryStr {o with comment := none, timeout := none} no cnt nw ∧
    addStmtStr o nw = "add address=\x22".data ++ networkStr nw
      ++ "\x22 list=\x22".data ++ o.list_name ++ "\x22".data
      ++ (if o.dynamic then " dynamic=yes".data else " dynamic=no".data)
      ++ (if o.disabled then " disabled=yes".data else " disabled=no".data) := by
  have t1 : truthyStr o.comment = false := by rw [h1]; rfl
  have t2 : truthyNat o.timeout = false := by rw [h2]; rfl
  constructor
  · simp [entryStr, addStmtStr, successLogStr, skipLogStr, h1, h2,
      truthyStr, truthyNat]
  · simp [addStmtStr, h1, h2, truthyStr, truthyNat]

/-- Witness for C9 at a concrete request. -/
theorem c9_falsy_unset_witness :
    entryStr ⟨"block".data, none, some [], some 0, .debug, false, false,
        false, false, false⟩ 1 1 (.v4 167772160 24)
      = entryStr ⟨"block".data, none, none, none, .debug, false, false,
        false, false, false⟩ 1 1 (.v4 167772160 24) ∧
    addStmtStr ⟨"block".data, none, some [], some 0, .debug, false, false,
        false, false, false⟩ (.v4 167772160 24)
      = "add address=\x22".data ++ networkStr (.v4 167772160 24)
        ++ "\x22 list=\x22".data ++ "block".data ++ "\x22".data
        ++ " dynamic=no".data ++ " disabled=no".data := by
  have := c9_falsy_unset ⟨"block".data, none, some [], some 0, .debug,
    false, false, false, false, false⟩ 1 1 (.v4 167772160 24) rfl rfl
  exact ⟨this.1, this.2⟩

/-- A concrete option record with `no_catch_errors` set, used to examine
the emission shape without the try/catch wrapper. -/
def noCatchOpts : ScriptOptions :=
  ⟨"block".data, none, none, none, .debug, true, false, false, false, false⟩

/-- Claim C1 fails on the code: with `noCatchErrors=true` the emitted
statement is the `add` statement with the per-entry success `:log` still
appended (line 98 is unconditional), so it is not the bare `add`
statement and a success log is emitted. -/
theorem c1_counterexample :
    noCatchOpts.no_catch_errors = true ∧
    bodyAddLines true noCatchOpts ["10.0.0.0/24".data]
      = [addStmtStr noCatchOpts (.v4 167772160 24)
          ++ successLogStr noCatchOpts 1 1 (.v4 167772160 24)] ∧
    containsSub (scriptBodyGen true noCatchOpts ["10.0.0.0/24".data])
      ("] Added address \x27".data) = true ∧
    addStmtStr noCatchOpts (.v4 167772160 24)
        ++ successLogStr noCatchOpts 1 1 (.v4 167772160 24)
      ≠ addStmtStr noCatchOpts (.v4 167772160 24) := by decide

/-- Claim C1 amended: with `noCatchErrors=true` each emitted statement is
the `add` statement directly followed by the per-entry success log — there
is no `:onerror` wrapper and no skip branch, but the success `:log` is
still emitted. -/
theorem c1_no_catch_shape (o : ScriptOptions) (no cnt : Nat)
    (nw : IPNetwork) (h : o.no_catch_errors = true) :
    entryStr o no cnt nw = addStmtStr o nw ++ successLogStr o no cnt nw ∧
    ¬ (":onerror in=\x7b ".data <+: entryStr o no cnt nw) := by
  have e1 : entryStr o no cnt nw
      = addStmtStr o nw ++ successLogStr o no cnt nw := by
    simp [entryStr, h]
  refine ⟨e1, ?_⟩
  intro hp
  obtain ⟨t, ht⟩ := hp
  rw [e1] at ht
  have hA : (addStmtStr o nw ++ successLogStr o no cnt nw).head?
      = some 'a' := rfl
  have hP : ((":onerror in=\x7b ".data : Str) ++ t).head? = some ':' := rfl
  rw [ht, hA] at hP
  exact absurd (Option.some.inj hP) (by decide)

/-- Witness for the amended C1 at a concrete entry. -/
theorem c1_no_catch_shape_witness :
    entryStr noCatchOpts 1 1 (.v4 167772160 24)
      = addStmtStr noCatchOpts (.v4 167772160 24)
        ++ successLogStr noCatchOpts 1 1 (.v4 167772160 24) ∧
    ¬ (":onerror in=\x7b ".data <+: entryStr noCatchOpts 1 1 (.v4 167772160 24)) :=
  c1_no_catch_shape noCatchOpts 1 1 (.v4 167772160 24) rfl

/-- The attribute shape of the `add` statement, with the truthiness tests
written out over the optional fields. -/
theorem addStmtStr_shape (o : ScriptOptions) (nw : IPNetwork) :
    addStmtStr o nw = "add address=\x22".data ++ networkStr nw
      ++ "\x22 list=\x22".data ++ o.list_name ++ "\x22".data
      ++ (match o.comment with
          | some c => if c.isEmpty then []
              else " comment=\x22".data ++ c ++ "\x22".data
          | none => [])
      ++ (match o.timeout with
          | some t => if t = 0 then []
              else " timeout=\x22".data ++ decStr t ++ "s\x22".data
          | none => [])
      ++ (if o.dynamic then " dynamic=yes".data else " dynamic=no".data)
      ++ (if o.disabled then " disabled=yes".data else " disabled=no".data) := by
  rw [addStmtStr]
  cases hoc : o.comment with
  | none =>
    cases hot : o.timeout with
    | none => simp [truthyStr, truthyNat]
    | some t =>
      by_cases ht : t = 0 <;> simp [truthyStr, truthyNat, ht]
  | some c =>
    cases hot : o.timeout with
    | none =>
      cases hce : c.isEmpty <;> simp [truthyStr, truthyNat, hce]
    | some t =>
      cases hce : c.isEmpty <;> by_cases ht : t = 0 <;>
        simp [truthyStr, truthyNat, hce, ht]

/-- A concrete option record whose comment is set to the empty string and
whose timeout is set to zero. -/
def falsySetOpts : ScriptOptions :=
  ⟨"block".data, none, some [], some 0, .debug, false, false, false, false,
    false⟩

/-- Claim C7 fails on the code: with the comment set (to the empty string)
and the timeout set (to 0), the emitted statement carries no `comment=`
and no `timeout=` attribute, because the code tests truthiness rather
than presence. -/
theorem c7_counterexample :
    falsySetOpts.comment ≠ none ∧ falsySetOpts.timeout ≠ none ∧
    containsSub (entryStr falsySetOpts 1 1 (.v4 167772160 24))
      (" comment=".data) = false ∧
    containsSub (entryStr falsySetOpts 1 1 (.v4 167772160 24))
      (" timeout=".data) = false := by decide

/-- Claim C7 amended: every emitted statement embeds an `add` statement
carrying `address` and `list` always, a `comment` attribute exactly when
the comment is set to a nonempty string, a `timeout="<N>s"` attribute
exactly when the timeout is set to a nonzero value, and always an explicit
`dynamic=yes|no` and `disabled=yes|no` according to the flags. -/
theorem c7_attr_shape (o : ScriptOptions) (lines : List Str) (l : Str)
    (hm : l ∈ bodyAddLines true o lines) :
    ∃ no nw, (no, nw) ∈ acceptedEntries true o lines ∧
      l = (if !o.no_catch_errors then ":onerror in=\x7b ".data else [])
        ++ ("add address=\x22".data ++ networkStr nw
          ++ "\x22 list=\x22".data ++ o.list_name ++ "\x22".data
          ++ (match o.comment with
              | some c => if c.isEmpty then []
                  else " comment=\x22".data ++ c ++ "\x22".data
              | none => [])
          ++ (match o.timeout with
              | some t => if t = 0 then []
                  else " timeout=\x22".data ++ decStr t ++ "s\x22".data
              | none => [])
          ++ (if o.dynamic then " dynamic=yes".data else " dynamic=no".data)
          ++ (if o.disabled then " disabled=yes".data
              else " disabled=no".data))
        ++ successLogStr o no lines.length nw
        ++ (if !o.no_catch_errors then skipLogStr o no lines.length nw
            else []) := by
  rw [bodyAddLines] at hm
  obtain ⟨e, hme, rfl⟩ := List.mem_map.mp hm
  refine ⟨e.1, e.2, hme, ?_⟩
  rw [entryStr, addStmtStr_shape]

/-- A concrete option record with a nonempty comment, a timeout of 300
seconds and dynamic entries. -/
def attrOpts : ScriptOptions :=
  ⟨"block".data, none, some ("vip".data), some 300, .debug, false, false,
    false, true, false⟩

/-- Witness for the amended C7 at a concrete emitted statement. -/
theorem c7_attr_shape_witness :
    ∃ no nw, (no, nw) ∈ acceptedEntries true attrOpts ["10.0.0.0/24".data] ∧
      entryStr attrOpts 1 1 (.v4 167772160 24)
        = (if !attrOpts.no_catch_errors then ":onerror in=\x7b ".data
            else [])
        ++ ("add address=\x22".data ++ networkStr nw
          ++ "\x22 list=\x22".data ++ attrOpts.list_name ++ "\x22".data
          ++ (match attrOpts.comment with
              | some c => if c.isEmpty then []
                  else " comment=\x22".data ++ c ++ "\x22".data
              | none => [])
          ++ (match attrOpts.timeout with
              | some t => if t = 0 then []
                  else " timeout=\x22".data ++ decStr t ++ "s\x22".data
              | none => [])
          ++ (if attrOpts.dynamic then " dynamic=yes".data
              else " dynamic=no".data)
          ++ (if attrOpts.disabled then " disabled=yes".data
              else " disabled=no".data))
        ++ successLogStr attrOpts no (["10.0.0.0/24".data] : List Str).length nw
        ++ (if !attrOpts.no_catch_errors then
              skipLogStr attrOpts no (["10.0.0.0/24".data] : List Str).length nw
            else []) :=
  c7_attr_shape attrOpts ["10.0.0.0/24".data]
    (entryStr attrOpts 1 1 (.v4 167772160 24)) (by decide)

/-- A concrete option record with `no_ipv4` set. -/
def noV4Opts : ScriptOptions :=
  ⟨"block".data, none, none, none, .debug, false, true, false, false, false⟩

/-- Witness for C4 at concrete inputs: with `noIPv4` set the accepted
entry for `::1` is not IPv4, and the IPv4 line `10.0.0.5` is classified
as a family skip. -/
theorem c4_family_filters_witness :
    IPNetwork.isV4 (.v6 1 128) = false ∧
    classifyLine true noV4Opts ("10.0.0.5".data)
      = .familySkip (.v4 167772165 32) := by
  constructor
  · exact (c4_family_filters noV4Opts ["::1".data]).1 rfl (1, .v6 1 128)
      (by decide)
  · exact (c4_family_filters noV4Opts []).2.2 ("10.0.0.5".data)
      (.v4 167772165 32) (by decide) (by decide) (by decide) (by decide)

/-- The input lines of the worked scenario: a network, a comment line, a
blank line, a bare address and a malformed line (Python's file iteration
yields five lines for the given file content). -/
def scenarioInput : List Str :=
  ["10.0.0.0/24".data, "# comment".data, [], "192.168.1.1".data,
   "not-an-ip".data]

/-- A line's classification depends on the options only through the two
address-family flags. -/
theorem classifyLine_only_flags (strict : Bool) (o o' : ScriptOptions)
    (h4 : o.no_ipv4 = o'.no_ipv4) (h6 : o.no_ipv6 = o'.no_ipv6) (l : Str) :
    classifyLine strict o l = classifyLine strict o' l := by
  unfold classifyLine
  rw [h4, h6]

/-- Claim C3: on the scenario input with both families enabled, errors
caught and list name `block`, exactly the two valid lines are accepted
(as `10.0.0.0/24` and `192.168.1.1/32`), the count is 2, the malformed
fifth line of five yields a parse error and no statement, and the body is
the two statements between the opening lines and a footer reporting 2. -/
theorem c3_scenario (o : ScriptOptions) (h4 : o.no_ipv4 = false)
    (h6 : o.no_ipv6 = false) (_hc : o.no_catch_errors = false)
    (_hn : o.list_name = "block".data) :
    acceptedEntries true o scenarioInput
      = [(1, .v4 167772160 24), (4, .v4 3232235777 32)] ∧
    scriptEntryCount true o scenarioInput = 2 ∧
    parseErrorLines true o scenarioInput = [5] ∧
    scenarioInput.length = 5 ∧
    ipNetwork true (pyStrip ("not-an-ip".data)) = none ∧
    networkStr (.v4 167772160 24) = "10.0.0.0/24".data ∧
    networkStr (.v4 3232235777 32) = "192.168.1.1/32".data ∧
    scriptBody o scenarioInput = joinWith '\n'
      [headLine o, nsLine,
       entryStr o 1 5 (.v4 167772160 24),
       entryStr o 4 5 (.v4 3232235777 32),
       footerLine o 2] := by
  have htr : ∀ l, classifyLine true o l = classifyLine true noCatchOpts l := by
    intro l
    exact classifyLine_only_flags true o noCatchOpts (by rw [h4]; rfl)
      (by rw [h6]; rfl) l
  have k1 : classifyLine true o ("10.0.0.0/24".data)
      = .accepted (.v4 167772160 24) := by rw [htr]; decide
  have k2 : classifyLine true o ("# comment".data)
      = .skippedBlankOrComment := by rw [htr]; decide
  have k3 : classifyLine true o ([] : Str) = .skippedBlankOrComment := by
    rw [htr]; decide
  have k4 : classifyLine true o ("192.168.1.1".data)
      = .accepted (.v4 3232235777 32) := by rw [htr]; decide
  have k5 : classifyLine true o ("not-an-ip".data) = .parseFailure := by
    rw [htr]; decide
  have hacc : acceptedEntries true o scenarioInput
      = [(1, .v4 167772160 24), (4, .v4 3232235777 32)] := by
    rw [acceptedEntries, scenarioInput]
    rw [acceptedFrom, k1, acceptedFrom, k2, acceptedFrom, k3,
      acceptedFrom, k4, acceptedFrom, k5, acceptedFrom]
  have hcnt : scriptEntryCount true o scenarioInput = 2 := by
    rw [scriptEntryCount_eq_length true o scenarioInput 1]
    rw [show acceptedFrom true o 1 scenarioInput
      = acceptedEntries true o scenarioInput from rfl, hacc]
    rfl
  refine ⟨hacc, hcnt, ?_, rfl, by decide, by decide, by decide, ?_⟩
  · rw [parseErrorLines, scenarioInput]
    rw [parseErrorsFrom, k1, parseErrorsFrom, k2, parseErrorsFrom, k3,
      parseErrorsFrom, k4, parseErrorsFrom, k5, parseErrorsFrom]
  · rw [scriptBody, scriptBodyGen, bodyAddLines, hacc, hcnt]
    rfl

/-- Witness for C3: the scenario theorem applied at the concrete options. -/
theorem c3_scenario_witness :
    acceptedEntries true
        ⟨"block".data, none, none, none, .debug, false, false, false,
          false, false⟩ scenarioInput
      = [(1, .v4 167772160 24), (4, .v4 3232235777 32)] ∧
    scriptEntryCount true
        ⟨"block".data, none, none, none, .debug, false, false, false,
          false, false⟩ scenarioInput = 2 := by
  have := c3_scenario
    ⟨"block".data, none, none, none, .debug, false, false, false, false,
      false⟩ rfl rfl rfl rfl
  exact ⟨this.1, this.2.1⟩

/-- A concrete option record with all flags off. -/
def plainOpts : ScriptOptions :=
  ⟨"block".data, none, none, none, .debug, false, false, false, false,
    false⟩

/-- Claim C10 fails on the code: the generate_script.py revision parses
strictly while the __main__.py revision passes `strict=False`, so on the
line `10.0.0.1/24` (host bits set) the former emits no statement and the
latter emits one for the masked network `10.0.0.0/24`; the bodies differ. -/
theorem c10_counterexample :
    scriptBody plainOpts ["10.0.0.1/24".data]
      ≠ scriptBodyMain plainOpts ["10.0.0.1/24".data] := by decide

/-- Claim C10 amended: the two revisions produce string-equal bodies for
every input on which strict and non-strict parsing agree line by line
(in particular whenever no line has host bits set beyond its prefix). -/
theorem c10_bodies_agree (o : ScriptOptions) (lines : List Str)
    (h : ∀ l ∈ lines, ipNetwork true (pyStrip l) = ipNetwork false (pyStrip l)) :
    scriptBody o lines = scriptBodyMain o lines := by
  have hcl : ∀ l ∈ lines, classifyLine true o l = classifyLine false o l := by
    intro l hl
    unfold classifyLine
    dsimp only
    rw [h l hl]
  have hacc : ∀ no, acceptedFrom true o no lines
      = acceptedFrom false o no lines := by
    clear h
    induction lines with
    | nil => intro no; rfl
    | cons l ls ih =>
      intro no
      have h1 := hcl l (by simp)
      have h2 : ∀ x ∈ ls, classifyLine true o x = classifyLine false o x :=
        fun x hx => hcl x (List.mem_cons_of_mem _ hx)
      rw [acceptedFrom, acceptedFrom, h1]
      cases classifyLine false o l <;> rw [ih h2]
  have hcnt : scriptEntryCount true o lines
      = scriptEntryCount false o lines := by
    rw [scriptEntryCount_eq_length true o lines 1,
      scriptEntryCount_eq_length false o lines 1, hacc 1]
  rw [scriptBody, scriptBodyMain, scriptBodyGen, scriptBodyGen,
    bodyAddLines, bodyAddLines, acceptedEntries, acceptedEntries,
    hacc 1, hcnt]

/-- Witness for the amended C10 at a concrete input. -/
theorem c10_bodies_agree_witness :
    scriptBody plainOpts ["10.0.0.0/24".data, "bogus".data]
      = scriptBodyMain plainOpts ["10.0.0.0/24".data, "bogus".data] :=
  c10_bodies_agree plainOpts ["10.0.0.0/24".data, "bogus".data] (by decide)

/-- Claim C6: the generator fails with `InputError` when neither file nor
URL is supplied, fails with `SourceNotFoundError` when the resolved path
is not a regular file, and in every other resolved case returns the
complete script, an input with zero entries (here: empty content) giving
entry count 0 rather than an error. -/
theorem c6_error_contract (fs : FileSys) (download : Str → Option Str)
    (bt bv now : Str) (o : ScriptOptions) (file url : Option Str) :
    (file = none → url = none →
      generateFull fs download bt bv now o file url = .error .inputError) ∧
    (∀ p, resolveSource download file url = .ok p → fs.isFile p = false →
      generateFull fs download bt bv now o file url
        = .error .sourceNotFoundError) ∧
    (∀ p, resolveSource download file url = .ok p → fs.isFile p = true →
      generateFull fs download bt bv now o file url
        = .ok (generateScript bt bv now o (fs.content p))) ∧
    scriptEntryCount true o [] = 0 := by
  refine ⟨?_, ?_, ?_, rfl⟩
  · rintro rfl rfl
    rfl
  · intro p hp hf
    simp [generateFull, hp, generateFromPath, hf]
  · intro p hp hf
    simp [generateFull, hp, generateFromPath, hf]

/-- Witness for C6: the three contract branches at concrete file systems. -/
theorem c6_error_contract_witness :
    generateFull ⟨fun _ => true, fun _ => []⟩ (fun _ => none)
        "t".data "1".data "now".data plainOpts none none
      = .error .inputError ∧
    generateFull ⟨fun _ => false, fun _ => []⟩ (fun _ => none)
        "t".data "1".data "now".data plainOpts (some ("f".data)) none
      = .error .sourceNotFoundError ∧
    generateFull ⟨fun _ => true, fun _ => []⟩ (fun _ => none)
        "t".data "1".data "now".data plainOpts (some ("f".data)) none
      = .ok (generateScript "t".data "1".data "now".data plainOpts []) := by
  refine ⟨?_, ?_, ?_⟩
  · exact (c6_error_contract ⟨fun _ => true, fun _ => []⟩ (fun _ => none)
      "t".data "1".data "now".data plainOpts none none).1 rfl rfl
  · exact (c6_error_contract ⟨fun _ => false, fun _ => []⟩ (fun _ => none)
      "t".data "1".data "now".data plainOpts (some ("f".data)) none).2.1
      ("f".data) rfl rfl
  · exact (c6_error_contract ⟨fun _ => true, fun _ => []⟩ (fun _ => none)
      "t".data "1".data "now".data plainOpts (some ("f".data)) none).2.2.1
      ("f".data) rfl rfl

theorem decStr_mem_digit (n : Nat) (c : Char) (hc : c ∈ decStr n) :
    isDigitChar c = true :=
  List.all_eq_true.mp (decStr_all_digits n) c hc

theorem hexStr_mem_hex (n : Nat) (c : Char) (hc : c ∈ hexStr n) :
    isHexChar c = true :=
  List.all_eq_true.mp (hexStr_all_hex n) c hc

theorem slash_not_mem_decStr (n : Nat) : '/' ∉ decStr n := fun h =>
  (isDigitChar_implies '/' (decStr_mem_digit n '/' h)).2.2.1 rfl

theorem dot_not_mem_decStr (n : Nat) : '.' ∉ decStr n := fun h =>
  (isDigitChar_implies '.' (decStr_mem_digit n '.' h)).1 rfl

theorem splitOnChar_two (sep : Char) (x y : Str) (hx : sep ∉ x)
    (hy : sep ∉ y) : splitOnChar sep (x ++ sep :: y) = [x, y] := by
  rw [splitOnChar_append_sep sep x _ hx, splitOnChar_no_sep sep y hy]

theorem parseOctet_decStr (v : Nat) (h : v < 256) :
    parseOctet (decStr v) = some v := by
  unfold parseOctet
  rw [if_neg (decStr_ne_nil v)]
  rw [if_neg (by simp [decStr_all_digits v])]
  rw [if_neg (by
    have := decStr_length_le 3 v (by omega) (by omega)
    omega)]
  rw [if_neg (by
    rcases Nat.eq_zero_or_pos v with hv | hv
    · subst hv
      intro hcon
      exact hcon.1 (by decide)
    · intro hcon
      exact decStr_headD_ne_zero v hv hcon.2)]
  rw [decVal_decStr]
  rw [if_neg (by omega)]


theorem parsePrefixLen_decStr (m p : Nat) (h : p ≤ m) :
    parsePrefixLen m (decStr p) = some p := by
  unfold parsePrefixLen
  rw [if_neg (decStr_ne_nil p)]
  rw [if_neg (by simp [decStr_all_digits p])]
  rw [decVal_decStr]
  rw [if_pos h]


theorem v4AddrStr_eq_join (a : Nat) : v4AddrStr a
    = joinWith '.' [decStr (a / 16777216 % 256), decStr (a / 65536 % 256),
        decStr (a / 256 % 256), decStr (a % 256)] := by
  simp [v4AddrStr, joinWith]

theorem mem_v4AddrStr (a : Nat) (c : Char) (hc : c ∈ v4AddrStr a) :
    isDigitChar c = true ∨ c = '.' := by
  rw [v4AddrStr_eq_join] at hc
  simp only [joinWith] at hc
  rcases List.mem_append.mp hc with h | h
  · exact Or.inl (decStr_mem_digit _ c h)
  rcases List.mem_cons.mp h with h | h
  · exact Or.inr h
  rcases List.mem_append.mp h with h | h
  · exact Or.inl (decStr_mem_digit _ c h)
  rcases List.mem_cons.mp h with h | h
  · exact Or.inr h
  rcases List.mem_append.mp h with h | h
  · exact Or.inl (decStr_mem_digit _ c h)
  rcases List.mem_cons.mp h with h | h
  · exact Or.inr h
  exact Or.inl (decStr_mem_digit _ c h)

theorem slash_not_mem_v4AddrStr (a : Nat) : '/' ∉ v4AddrStr a := by
  intro h
  rcases mem_v4AddrStr a '/' h with h1 | h1
  · exact (isDigitChar_implies '/' h1).2.2.1 rfl
  · exact absurd h1 (by decide)

theorem parseIPv4Addr_v4AddrStr (a : Nat) (ha : a < 2 ^ 32) :
    parseIPv4Addr (v4AddrStr a) = some a := by
  have hsplit : splitOnChar '.' (v4AddrStr a)
      = [decStr (a / 16777216 % 256), decStr (a / 65536 % 256),
         decStr (a / 256 % 256), decStr (a % 256)] := by
    rw [v4AddrStr_eq_join]
    refine splitOnChar_joinWith '.' _ (by simp) ?_
    intro p hp
    simp only [List.mem_cons, List.not_mem_nil, or_false] at hp
    rcases hp with rfl | rfl | rfl | rfl <;> exact dot_not_mem_decStr _
  unfold parseIPv4Addr
  rw [hsplit]
  dsimp only
  rw [parseOctet_decStr _ (by omega), parseOctet_decStr _ (by omega),
    parseOctet_decStr _ (by omega), parseOctet_decStr _ (by omega)]
  dsimp only
  have : ((a / 16777216 % 256 * 256 + a / 65536 % 256) * 256
      + a / 256 % 256) * 256 + a % 256 = a := by omega
  rw [this]

theorem parseOctet_le (s : Str) (v : Nat) (h : parseOctet s = some v) :
    v ≤ 255 := by
  unfold parseOctet at h
  split at h
  · cases h
  · split at h
    · cases h
    · split at h
      · cases h
      · split at h
        · cases h
        · split at h
          · cases h
          · rename_i hv
            rw [Option.some_inj] at h
            omega

theorem parseIPv4Addr_lt (s : Str) (a : Nat)
    (h : parseIPv4Addr s = some a) : a < 2 ^ 32 := by
  unfold parseIPv4Addr at h
  split at h
  · rename_i x y z w heq
    cases h1 : parseOctet x with
    | none => rw [h1] at h; simp at h
    | some v1 =>
      rw [h1] at h
      cases h2 : parseOctet y with
      | none => rw [h2] at h; simp at h
      | some v2 =>
        rw [h2] at h
        cases h3 : parseOctet z with
        | none => rw [h3] at h; simp at h
        | some v3 =>
          rw [h3] at h
          cases h4 : parseOctet w with
          | none => rw [h4] at h; simp at h
          | some v4 =>
            rw [h4] at h
            simp only [Option.some_inj] at h
            have b1 := parseOctet_le _ _ h1
            have b2 := parseOctet_le _ _ h2
            have b3 := parseOctet_le _ _ h3
            have b4 := parseOctet_le _ _ h4
            omega
  · cases h

/-- A well-formed network value: prefix within range, address within
range, and no host bits set. -/
def IPNetwork.valid : IPNetwork → Prop
  | .v4 a p => p ≤ 32 ∧ a < 2 ^ 32 ∧ a % 2 ^ (32 - p) = 0
  | .v6 a p => p ≤ 128 ∧ a < 2 ^ 128 ∧ a % 2 ^ (128 - p) = 0

theorem mkNetwork_self (b : Bool) (size a p : Nat)
    (mk : Nat → Nat → IPNetwork) (h : a % 2 ^ (size - p) = 0) :
    mkNetwork b size a p mk = some (mk a p) := by
  unfold mkNetwork
  cases b
  · simp [h]
  · simp [h]

theorem mkNetwork_masked (b : Bool) (size a p : Nat)
    (mk : Nat → Nat → IPNetwork) (nw : IPNetwork)
    (h : mkNetwork b size a p mk = some nw) :
    ∃ a', nw = mk a' p ∧ a' ≤ a ∧ a' % 2 ^ (size - p) = 0 := by
  unfold mkNetwork at h
  cases b
  · simp only [Bool.false_eq_true, if_false, Option.some_inj] at h
    refine ⟨a - a % 2 ^ (size - p), h.symm, by omega, ?_⟩
    have hd := Nat.div_add_mod a (2 ^ (size - p))
    have : a - a % 2 ^ (size - p) = 2 ^ (size - p) * (a / 2 ^ (size - p)) := by
      omega
    rw [this]
    exact Nat.mul_mod_right _ _
  · simp only [if_true] at h
    split at h
    · rename_i hz
      rw [Option.some_inj] at h
      exact ⟨a, h.symm, le_refl a, hz⟩
    · cases h

theorem tryV4_networkStr (b : Bool) (a p : Nat) (ha : a < 2 ^ 32)
    (hp : p ≤ 32) (hm : a % 2 ^ (32 - p) = 0) :
    tryV4 b (v4AddrStr a) (some (decStr p)) = some (.v4 a p) := by
  unfold tryV4
  rw [parseIPv4Addr_v4AddrStr a ha]
  dsimp only
  rw [parsePrefixLen_decStr 32 p hp]
  exact mkNetwork_self b 32 a p _ hm

theorem ipNetwork_networkStr_v4 (b : Bool) (a p : Nat) (ha : a < 2 ^ 32)
    (hp : p ≤ 32) (hm : a % 2 ^ (32 - p) = 0) :
    ipNetwork b (networkStr (.v4 a p)) = some (.v4 a p) := by
  unfold ipNetwork
  rw [show networkStr (.v4 a p) = v4AddrStr a ++ '/' :: decStr p from rfl]
  rw [splitOnChar_two '/' _ _ (slash_not_mem_v4AddrStr a)
    (slash_not_mem_decStr p)]
  dsimp only
  rw [tryV4_networkStr b a p ha hp hm]

theorem hexVal_lt (c : Char) (h : isHexChar c = true) : hexVal c < 16 := by
  have h' : isDigitChar c = true ∨ (97 ≤ c.toNat ∧ c.toNat ≤ 102)
      ∨ (65 ≤ c.toNat ∧ c.toNat ≤ 70) := by
    unfold isHexChar at h
    simp only [Bool.or_eq_true, Bool.and_eq_true, decide_eq_true_eq] at h
    tauto
  have hd : isDigitChar c = true → c.toNat - 48 < 16 := by
    intro hd
    unfold isDigitChar at hd
    simp only [Bool.and_eq_true, decide_eq_true_eq] at hd
    omega
  unfold hexVal digitVal
  by_cases h1 : isDigitChar c = true
  · rw [if_pos h1]
    exact hd h1
  · rw [if_neg h1]
    by_cases h2 : (97 ≤ c.toNat && c.toNat ≤ 102) = true
    · rw [if_pos h2]
      simp only [Bool.and_eq_true, decide_eq_true_eq] at h2
      omega
    · rw [if_neg h2]
      simp only [Bool.and_eq_true, decide_eq_true_eq, not_and] at h2
      rcases h' with h3 | h3 | h3
      · exact absurd h3 h1
      · omega
      · omega

theorem hexValAux_lt (s : Str) : ∀ acc, s.all isHexChar = true →
    hexValAux acc s < (acc + 1) * 16 ^ s.length := by
  induction s with
  | nil =>
    intro acc _
    simp only [hexValAux, List.length_nil, pow_zero, mul_one]
    omega
  | cons c cs ih =>
    intro acc hall
    rw [List.all_cons, Bool.and_eq_true] at hall
    have hc := hexVal_lt c hall.1
    have := ih (acc * 16 + hexVal c) hall.2
    have hstep : hexValAux acc (c :: cs)
        = hexValAux (acc * 16 + hexVal c) cs := rfl
    rw [hstep]
    have h2 : (acc * 16 + hexVal c + 1) * 16 ^ cs.length
        ≤ (acc + 1) * 16 ^ (c :: cs).length := by
      rw [List.length_cons, pow_succ]
      have : acc * 16 + hexVal c + 1 ≤ (acc + 1) * 16 := by omega
      calc (acc * 16 + hexVal c + 1) * 16 ^ cs.length
          ≤ (acc + 1) * 16 * 16 ^ cs.length :=
            Nat.mul_le_mul_right _ this
        _ = (acc + 1) * (16 ^ cs.length * 16) := by ring
    exact lt_of_lt_of_le (this.trans_le (le_refl _)) h2

theorem parseHextet_lt (s : Str) (v : Nat) (h : parseHextet s = some v) :
    v < 65536 := by
  unfold parseHextet at h
  split at h
  · cases h
  · split at h
    · cases h
    · split at h
      · cases h
      · rename_i hall hlen hne
        rw [Option.some_inj] at h
        rw [not_not] at hall
        have := hexValAux_lt s 0 hall
        have h16 : 16 ^ s.length ≤ 16 ^ 4 :=
          Nat.pow_le_pow_right (by omega) (by omega)
        omega

theorem parseHextet_hexStr (g : Nat) (hg : g < 65536) :
    parseHextet (hexStr g) = some g := by
  unfold parseHextet
  rw [if_neg (by simp [hexStr_all_hex g])]
  rw [if_neg (by
    have := hexStr_length_le 4 g (by omega) (by omega)
    omega)]
  rw [if_neg (hexStr_ne_nil g)]
  rw [hexVal_hexStr]

/-- The pure value of a list of 16-bit groups, big-endian. -/
def groupsVal (gs : List Nat) : Nat :=
  gs.foldl (fun a g => a * 65536 + g) 0

theorem groupsVal_acc (gs : List Nat) : ∀ acc,
    gs.foldl (fun a g => a * 65536 + g) acc
      = acc * 65536 ^ gs.length + groupsVal gs := by
  induction gs with
  | nil => intro acc; simp [groupsVal]
  | cons g gs ih =>
    intro acc
    rw [List.foldl_cons]
    rw [ih (acc * 65536 + g)]
    rw [show groupsVal (g :: gs) = (g :: gs).foldl (fun a g => a * 65536 + g) 0
      from rfl]
    rw [List.foldl_cons, ih (0 * 65536 + g)]
    simp only [List.length_cons, pow_succ]
    ring

theorem groupsVal_lt (gs : List Nat) (h : ∀ g ∈ gs, g < 65536) :
    groupsVal gs < 65536 ^ gs.length := by
  induction gs with
  | nil => simp [groupsVal]
  | cons g gs ih =>
    have hg := h g (by simp)
    have ih2 := ih (fun x hx => h x (List.mem_cons_of_mem _ hx))
    rw [show groupsVal (g :: gs) = (g :: gs).foldl (fun a g => a * 65536 + g) 0
      from rfl, List.foldl_cons, groupsVal_acc]
    simp only [List.length_cons, pow_succ]
    have : (0 * 65536 + g) * 65536 ^ gs.length
        ≤ (65536 - 1) * 65536 ^ gs.length :=
      Nat.mul_le_mul_right _ (by omega)
    have hpow : 1 ≤ 65536 ^ gs.length := Nat.one_le_pow _ _ (by omega)
    calc (0 * 65536 + g) * 65536 ^ gs.length + groupsVal gs
        < (0 * 65536 + g) * 65536 ^ gs.length + 65536 ^ gs.length :=
          Nat.add_lt_add_left ih2 _
      _ ≤ (65536 - 1) * 65536 ^ gs.length + 65536 ^ gs.length :=
          Nat.add_le_add_right this _
      _ ≤ 65536 ^ gs.length * 65536 := by
          have h3 : (65536 - 1) * 65536 ^ gs.length + 65536 ^ gs.length
              = 65536 ^ gs.length * 65536 := by ring
          omega
      _ = 65536 ^ (gs.length + 1) := by rw [pow_succ]

theorem groupsVal_append (xs ys : List Nat) :
    groupsVal (xs ++ ys) = groupsVal xs * 65536 ^ ys.length + groupsVal ys := by
  rw [groupsVal, List.foldl_append, ← groupsVal, groupsVal_acc]

theorem groupsVal_replicate_zero (k : Nat) :
    groupsVal (List.replicate k 0) = 0 := by
  induction k with
  | zero => rfl
  | succ k ih =>
    rw [List.replicate_succ, groupsVal, List.foldl_cons]
    simpa [groupsVal] using ih

theorem hextetsFoldVal_map (gs : List Nat) : ∀ acc,
    (∀ g ∈ gs, g < 65536) →
    hextetsFoldVal acc (gs.map hexStr)
      = some (gs.foldl (fun a g => a * 65536 + g) acc) := by
  induction gs with
  | nil => intro acc _; rfl
  | cons g gs ih =>
    intro acc h
    rw [List.map_cons]
    rw [show hextetsFoldVal acc (hexStr g :: gs.map hexStr)
      = (match parseHextet (hexStr g) with
         | none => none
         | some v => hextetsFoldVal (acc * 65536 + v) (gs.map hexStr))
      from rfl]
    rw [parseHextet_hexStr g (h g (by simp))]
    dsimp only
    rw [ih _ (fun x hx => h x (List.mem_cons_of_mem _ hx))]
    rfl

theorem hextetsFoldVal_lt (parts : List Str) : ∀ acc v,
    hextetsFoldVal acc parts = some v → v < (acc + 1) * 65536 ^ parts.length := by
  induction parts with
  | nil =>
    intro acc v h
    rw [show hextetsFoldVal acc [] = some acc from rfl, Option.some_inj] at h
    subst h
    simp only [List.length_nil, pow_zero, mul_one]
    omega
  | cons p ps ih =>
    intro acc v h
    rw [show hextetsFoldVal acc (p :: ps)
      = (match parseHextet p with
         | none => none
         | some g => hextetsFoldVal (acc * 65536 + g) ps) from rfl] at h
    cases hp : parseHextet p with
    | none => rw [hp] at h; cases h
    | some g =>
      rw [hp] at h
      have hg := parseHextet_lt p g hp
      have := ih _ _ h
      have h2 : (acc * 65536 + g + 1) * 65536 ^ ps.length
          ≤ (acc + 1) * 65536 ^ (p :: ps).length := by
        rw [List.length_cons, pow_succ]
        have hstep : acc * 65536 + g + 1 ≤ (acc + 1) * 65536 := by omega
        calc (acc * 65536 + g + 1) * 65536 ^ ps.length
            ≤ (acc + 1) * 65536 * 65536 ^ ps.length :=
              Nat.mul_le_mul_right _ hstep
          _ = (acc + 1) * (65536 ^ ps.length * 65536) := by ring
      exact lt_of_lt_of_le this h2

theorem toHextetVals_lt (a : Nat) : ∀ g ∈ toHextetVals a, g < 65536 := by
  intro g hg
  simp only [toHextetVals, List.mem_cons, List.not_mem_nil, or_false] at hg
  rcases hg with rfl | rfl | rfl | rfl | rfl | rfl | rfl | rfl <;>
    exact Nat.mod_lt _ (by omega)

theorem groupsVal_toHextetVals (a : Nat) (ha : a < 2 ^ 128) :
    groupsVal (toHextetVals a) = a := by
  simp only [toHextetVals, groupsVal, List.foldl_cons, List.foldl_nil]
  omega

theorem emptyIdxs_append (P Q : List Str) : ∀ i,
    emptyIdxs (P ++ Q) i = emptyIdxs P i ++ emptyIdxs Q (i + P.length) := by
  induction P with
  | nil =>
    intro i
    simp [emptyIdxs]
  | cons p ps ih =>
    intro i
    simp only [List.cons_append, emptyIdxs, List.append_eq, ih (i + 1),
      List.length_cons]
    rw [show i + 1 + ps.length = i + (ps.length + 1) by omega]
    simp [List.append_assoc]

theorem emptyIdxs_all_ne (P : List Str) (h : ∀ p ∈ P, p ≠ []) : ∀ i,
    emptyIdxs P i = [] := by
  induction P with
  | nil => intro i; rfl
  | cons p ps ih =>
    intro i
    simp only [emptyIdxs]
    rw [if_neg (h p (by simp))]
    simpa using ih (fun x hx => h x (List.mem_cons_of_mem _ hx)) (i + 1)

theorem headD_append_left (X Y : List Str) (hX : X ≠ []) (d : Str) :
    (X ++ Y).headD d = X.headD d := by
  cases X with
  | nil => exact absurd rfl hX
  | cons x xs => rfl

theorem getLastD_append_left (X Y : List Str) (hY : Y ≠ []) (d : Str) :
    (X ++ Y).getLastD d = Y.getLastD d := by
  rw [List.getLastD_eq_getLast?, List.getLastD_eq_getLast?,
    List.getLast?_append_of_ne_nil X hY]

theorem bestRunLoop_cons (idx : Nat) (bs : Option Nat) (bl : Nat)
    (cs : Option Nat) (cl : Nat) (h : Str) (t : List Str) :
    bestRunLoop idx bs bl cs cl (h :: t)
      = if h = ['0'] then
          (if cl + 1 > bl then
            bestRunLoop (idx + 1) (some (cs.getD idx)) (cl + 1)
              (some (cs.getD idx)) (cl + 1) t
           else bestRunLoop (idx + 1) bs bl (some (cs.getD idx)) (cl + 1) t)
        else bestRunLoop (idx + 1) bs bl none 0 t := by
  cases cs <;> rfl

/-- Soundness of the compression scan: a reported best run (of positive
length) is an actual run of `"0"` groups at the reported position. -/
theorem bestRunLoop_sound (l : List Str) : ∀ (pre : List Str)
    (bs : Option Nat) (bl : Nat) (cs : Option Nat) (cl : Nat),
    (∀ s, bs = some s → 1 ≤ bl →
      ∃ A B, pre = A ++ List.replicate bl ['0'] ++ B ∧ A.length = s) →
    (∀ c, cs = some c →
      ∃ A, pre = A ++ List.replicate cl ['0'] ∧ A.length = c) →
    (cs = none → cl = 0) →
    ∀ s n, bestRunLoop pre.length bs bl cs cl l = (some s, n) → 1 ≤ n →
    ∃ A B, pre ++ l = A ++ List.replicate n ['0'] ++ B ∧ A.length = s := by
  induction l with
  | nil =>
    intro pre bs bl cs cl hbs hcs hcl s n hrun hn
    rw [show bestRunLoop pre.length bs bl cs cl [] = (bs, bl) from rfl] at hrun
    rw [Prod.mk.injEq] at hrun
    obtain ⟨A, B, hAB, hA⟩ := hbs s hrun.1 (hrun.2 ▸ hn)
    exact ⟨A, B, by rw [List.append_nil, hAB, hrun.2], hA⟩
  | cons h t ih =>
    intro pre bs bl cs cl hbs hcs hcl s n hrun hn
    rw [bestRunLoop_cons] at hrun
    have hlen : pre.length + 1 = (pre ++ [h]).length := by simp
    by_cases hz : h = ['0']
    · rw [if_pos hz] at hrun
      subst hz
      have hcur : pre ++ [['0']]
          = (pre ++ [['0']]).take (cs.getD pre.length)
            ++ List.replicate (cl + 1) ['0'] ∧ True := ⟨by
        cases hcs0 : cs with
        | none =>
          have := hcl hcs0
          subst this
          simp
        | some c0 =>
          obtain ⟨A, hA1, hA2⟩ := hcs c0 hcs0
          rw [Option.getD_some]
          have hall : pre ++ [['0']] = A ++ List.replicate (cl + 1) ['0'] := by
            rw [hA1, List.replicate_succ', ← List.append_assoc]
          rw [hall, List.take_left' hA2], trivial⟩
      have hcurlen : ((pre ++ [['0']]).take (cs.getD pre.length)).length
          = cs.getD pre.length := by
        cases hcs0 : cs with
        | none =>
          have := hcl hcs0
          simp
        | some c0 =>
          obtain ⟨A, hA1, hA2⟩ := hcs c0 hcs0
          rw [Option.getD_some]
          have hall : pre ++ [['0']] = A ++ List.replicate (cl + 1) ['0'] := by
            rw [hA1, List.replicate_succ', ← List.append_assoc]
          rw [hall, List.take_left' hA2]
          exact hA2
      have hcs' : ∀ c, some (cs.getD pre.length) = some c →
          ∃ A, pre ++ [['0']] = A ++ List.replicate (cl + 1) ['0']
            ∧ A.length = c := by
        intro c hc
        rw [Option.some_inj] at hc
        exact ⟨(pre ++ [['0']]).take (cs.getD pre.length), hcur.1,
          hc ▸ hcurlen⟩
      by_cases hgt : cl + 1 > bl
      · rw [if_pos hgt, hlen] at hrun
        have := ih (pre ++ [['0']]) (some (cs.getD pre.length)) (cl + 1)
          (some (cs.getD pre.length)) (cl + 1)
          (fun s' hs' _ => by
            obtain ⟨A, hA1, hA2⟩ := hcs' s' hs'
            exact ⟨A, [], by simpa using hA1, hA2⟩)
          hcs'
          (fun hnone => by cases hnone)
          s n hrun hn
        obtain ⟨A, B, hAB, hA⟩ := this
        exact ⟨A, B, by simpa [List.append_assoc] using hAB, hA⟩
      · rw [if_neg hgt, hlen] at hrun
        have := ih (pre ++ [['0']]) bs bl (some (cs.getD pre.length)) (cl + 1)
          (fun s' hs' hbl' => by
            obtain ⟨A, B, hAB, hA⟩ := hbs s' hs' hbl'
            refine ⟨A, B ++ [['0']], ?_, hA⟩
            rw [hAB]
            simp [List.append_assoc])
          hcs'
          (fun hnone => by cases hnone)
          s n hrun hn
        obtain ⟨A, B, hAB, hA⟩ := this
        exact ⟨A, B, by simpa [List.append_assoc] using hAB, hA⟩
    · rw [if_neg hz, hlen] at hrun
      have := ih (pre ++ [h]) bs bl none 0
        (fun s' hs' hbl' => by
          obtain ⟨A, B, hAB, hA⟩ := hbs s' hs' hbl'
          refine ⟨A, B ++ [h], ?_, hA⟩
          rw [hAB]
          simp [List.append_assoc])
        (fun c' hc' => by cases hc')
        (fun _ => rfl)
        s n hrun hn
      obtain ⟨A, B, hAB, hA⟩ := this
      exact ⟨A, B, by simpa [List.append_assoc] using hAB, hA⟩

/-- The top-level form of the soundness lemma. -/
theorem bestRun_decomp (H : List Str) (s n : Nat)
    (h : bestRunLoop 0 none 0 none 0 H = (some s, n)) (hn : 1 ≤ n) :
    ∃ A B, H = A ++ List.replicate n ['0'] ++ B ∧ A.length = s := by
  have := bestRunLoop_sound H [] none 0 none 0
    (fun s' hs' _ => by cases hs')
    (fun c' hc' => by cases hc')
    (fun _ => rfl)
    s n (by simpa using h) hn
  simpa using this

theorem headD_ne_nil (P : List Str) (hP : P ≠ []) (h : ∀ p ∈ P, p ≠ []) :
    P.headD [] ≠ [] := by
  cases P with
  | nil => exact absurd rfl hP
  | cons p ps => exact h p (by simp)

theorem getLastD_ne_nil (P : List Str) (hP : P ≠ []) (h : ∀ p ∈ P, p ≠ []) :
    P.getLastD [] ≠ [] := by
  rw [List.getLastD_eq_getLast?, List.getLast?_eq_getLast P hP,
    Option.getD_some]
  exact h _ (List.getLast_mem hP)

theorem map_hexStr_ne_nil (gs : List Nat) : ∀ p ∈ gs.map hexStr, p ≠ [] := by
  intro p hp
  obtain ⟨g, _, rfl⟩ := List.mem_map.mp hp
  exact hexStr_ne_nil g

theorem map_hexStr_no_colon (gs : List Nat) :
    ∀ p ∈ gs.map hexStr, ':' ∉ p := by
  intro p hp hc
  obtain ⟨g, _, rfl⟩ := List.mem_map.mp hp
  exact (isHexChar_implies ':' (hexStr_mem_hex g ':' hc)).2.1 rfl

theorem parseIPv6_parts_full (gs : List Nat) (hg : ∀ g ∈ gs, g < 65536)
    (hlen : gs.length = 8) :
    parseIPv6Addr (joinWith ':' (gs.map hexStr)) = some (groupsVal gs) := by
  have hne := map_hexStr_ne_nil gs
  have hPne : gs.map hexStr ≠ [] := by
    intro h0
    have := congrArg List.length h0
    simp [hlen] at this
  have hsplit := splitOnChar_joinWith ':' (gs.map hexStr) hPne
    (map_hexStr_no_colon gs)
  unfold parseIPv6Addr
  rw [hsplit]
  have hlenp : (gs.map hexStr).length = 8 := by simpa using hlen
  rw [if_neg (by omega), if_neg (by omega)]
  have hmid : emptyIdxs (((gs.map hexStr).drop 1).dropLast) 1 = [] :=
    emptyIdxs_all_ne _
      (fun p hp => hne p (List.drop_subset _ _ (List.dropLast_subset _ hp))) 1
  rw [hmid]
  rw [if_neg (by omega)]
  rw [if_neg (headD_ne_nil _ hPne hne)]
  rw [if_neg (getLastD_ne_nil _ hPne hne)]
  rw [hextetsFoldVal_map gs 0 hg]
  rfl

theorem parseIPv6_parts_mid (gsA gsB : List Nat) (n : Nat)
    (hA : ∀ g ∈ gsA, g < 65536) (hB : ∀ g ∈ gsB, g < 65536)
    (hlen : gsA.length + n + gsB.length = 8) (hn : 2 ≤ n)
    (hAne : gsA ≠ []) (hBne : gsB ≠ []) :
    parseIPv6Addr (joinWith ':' (gsA.map hexStr ++ [] :: gsB.map hexStr))
      = some (groupsVal (gsA ++ List.replicate n 0 ++ gsB)) := by
  have ha1 : 1 ≤ gsA.length := List.length_pos.mpr hAne
  have hb1 : 1 ≤ gsB.length := List.length_pos.mpr hBne
  have hAmne : gsA.map hexStr ≠ [] := by
    intro h0
    exact hAne (List.map_eq_nil_iff.mp h0)
  have hBmne : gsB.map hexStr ≠ [] := by
    intro h0
    exact hBne (List.map_eq_nil_iff.mp h0)
  have hplen : (gsA.map hexStr ++ [] :: gsB.map hexStr).length
      = gsA.length + 1 + gsB.length := by
    simp [List.length_append]
    omega
  have hsplit := splitOnChar_joinWith ':'
    (gsA.map hexStr ++ [] :: gsB.map hexStr)
    (by
      intro h0
      have := congrArg List.length h0
      rw [hplen] at this
      simp at this)
    (by
      intro p hp
      rcases List.mem_append.mp hp with h | h
      · exact map_hexStr_no_colon gsA p h
      rcases List.mem_cons.mp h with h | h
      · subst h
        simp
      · exact map_hexStr_no_colon gsB p h)
  unfold parseIPv6Addr
  rw [hsplit]
  rw [if_neg (by rw [hplen]; omega), if_neg (by rw [hplen]; omega)]
  have hmid : emptyIdxs
      (((gsA.map hexStr ++ [] :: gsB.map hexStr).drop 1).dropLast) 1
      = [gsA.length] := by
    have hd1 : (gsA.map hexStr ++ [] :: gsB.map hexStr).drop 1
        = (gsA.map hexStr).drop 1 ++ [] :: gsB.map hexStr := by
      rw [List.drop_append_eq_append_drop]
      have : 1 - (gsA.map hexStr).length = 0 := by
        simp
        omega
      rw [this, List.drop_zero]
    rw [hd1]
    have hd2 : ((gsA.map hexStr).drop 1 ++ [] :: gsB.map hexStr).dropLast
        = (gsA.map hexStr).drop 1 ++ [[]] ++ (gsB.map hexStr).dropLast := by
      rw [show ([] : Str) :: gsB.map hexStr = [[]] ++ gsB.map hexStr from rfl]
      rw [← List.append_assoc]
      rw [List.dropLast_append_of_ne_nil _ hBmne]
    rw [hd2]
    rw [List.append_assoc, emptyIdxs_append, emptyIdxs_append]
    rw [emptyIdxs_all_ne ((gsA.map hexStr).drop 1)
      (fun p hp => map_hexStr_ne_nil gsA p (List.drop_subset _ _ hp)) 1]
    rw [emptyIdxs_all_ne ((gsB.map hexStr).dropLast)
      (fun p hp => map_hexStr_ne_nil gsB p (List.dropLast_subset _ hp)) _]
    rw [show emptyIdxs [[]] (1 + ((gsA.map hexStr).drop 1).length)
        = [1 + ((gsA.map hexStr).drop 1).length] from rfl]
    simp only [List.length_drop, List.length_map, List.nil_append,
      List.append_nil, List.length_cons]
    rw [show 1 + (gsA.length - 1) = gsA.length by omega]
  rw [hmid]
  dsimp only
  have hhead : ¬ ((gsA.map hexStr ++ [] :: gsB.map hexStr).headD [] = []) := by
    rw [headD_append_left _ _ hAmne]
    exact headD_ne_nil _ hAmne (map_hexStr_ne_nil gsA)
  rw [if_neg hhead]
  have hlast : ¬ ((gsA.map hexStr ++ [] :: gsB.map hexStr).getLastD [] = []) := by
    rw [getLastD_append_left _ _ (by simp)]
    rw [show ([] : Str) :: gsB.map hexStr = [[]] ++ gsB.map hexStr from rfl]
    rw [getLastD_append_left _ _ hBmne]
    exact getLastD_ne_nil _ hBmne (map_hexStr_ne_nil gsB)
  rw [if_neg hlast]
  rw [show (gsA.map hexStr ++ [] :: gsB.map hexStr).length - gsA.length - 1
      = gsB.length from by rw [hplen]; omega]
  dsimp only
  rw [if_neg (by omega)]
  have htake : (gsA.map hexStr ++ [] :: gsB.map hexStr).take gsA.length
      = gsA.map hexStr := List.take_left' (by simp)
  rw [htake]
  rw [show (gsA.map hexStr ++ [] :: gsB.map hexStr).length - gsB.length
      = gsA.length + 1 from by rw [hplen]; omega]
  have hdrop : (gsA.map hexStr ++ [] :: gsB.map hexStr).drop (gsA.length + 1)
      = gsB.map hexStr := by
    rw [show gsA.map hexStr ++ [] :: gsB.map hexStr
        = (gsA.map hexStr ++ [[]]) ++ gsB.map hexStr from by
      simp [List.append_assoc]]
    exact List.drop_left' (by simp)
  rw [hdrop]
  rw [hextetsFoldVal_map gsA 0 hA]
  dsimp only
  rw [hextetsFoldVal_map gsB _ hB]
  congr 1
  rw [groupsVal_acc gsB]
  rw [show List.foldl (fun a g => a * 65536 + g) 0 gsA = groupsVal gsA
    from rfl]
  rw [show 8 - (gsA.length + gsB.length) = n from by omega]
  rw [List.append_assoc, groupsVal_append, groupsVal_append,
    groupsVal_replicate_zero]
  rw [List.length_append, List.length_replicate]
  rw [pow_add]
  ring

theorem parseIPv6_parts_left (gsB : List Nat) (n : Nat)
    (hB : ∀ g ∈ gsB, g < 65536) (hlen : n + gsB.length = 8) (hn : 2 ≤ n)
    (hBne : gsB ≠ []) :
    parseIPv6Addr (joinWith ':' ([] :: [] :: gsB.map hexStr))
      = some (groupsVal (List.replicate n 0 ++ gsB)) := by
  have hb1 : 1 ≤ gsB.length := List.length_pos.mpr hBne
  have hBmne : gsB.map hexStr ≠ [] := by
    intro h0
    exact hBne (List.map_eq_nil_iff.mp h0)
  have hplen : (([] : Str) :: [] :: gsB.map hexStr).length
      = gsB.length + 2 := by
    simp
  have hsplit := splitOnChar_joinWith ':' ([] :: [] :: gsB.map hexStr)
    (by simp)
    (by
      intro p hp
      rcases List.mem_cons.mp hp with h | h
      · subst h; simp
      rcases List.mem_cons.mp h with h | h
      · subst h; simp
      · exact map_hexStr_no_colon gsB p h)
  unfold parseIPv6Addr
  rw [hsplit]
  rw [if_neg (by rw [hplen]; omega), if_neg (by rw [hplen]; omega)]
  have hmid : emptyIdxs
      (((([] : Str) :: [] :: gsB.map hexStr).drop 1).dropLast) 1 = [1] := by
    rw [show (([] : Str) :: [] :: gsB.map hexStr).drop 1
      = [] :: gsB.map hexStr from rfl]
    rw [show ([] : Str) :: gsB.map hexStr = [[]] ++ gsB.map hexStr from rfl]
    rw [List.dropLast_append_of_ne_nil _ hBmne]
    rw [emptyIdxs_append]
    rw [emptyIdxs_all_ne ((gsB.map hexStr).dropLast)
      (fun p hp => map_hexStr_ne_nil gsB p (List.dropLast_subset _ hp)) _]
    rfl
  rw [hmid]
  dsimp only
  rw [if_pos (show (([] : Str) :: [] :: gsB.map hexStr).headD [] = []
    from rfl)]
  rw [show (if (1 : Nat) = 1 then (some 0 : Option Nat) else none) = some 0
    from by norm_num]
  have hlast : ¬ ((([] : Str) :: [] :: gsB.map hexStr).getLastD [] = []) := by
    rw [show ([] : Str) :: [] :: gsB.map hexStr
      = [[], []] ++ gsB.map hexStr from rfl]
    rw [getLastD_append_left _ _ hBmne]
    exact getLastD_ne_nil _ hBmne (map_hexStr_ne_nil gsB)
  rw [if_neg hlast]
  rw [show (([] : Str) :: [] :: gsB.map hexStr).length - 1 - 1
      = gsB.length from by rw [hplen]; omega]
  try dsimp only
  rw [if_neg (by omega)]
  rw [show List.take 0 (([] : Str) :: [] :: gsB.map hexStr) = [] from rfl]
  rw [show (([] : Str) :: [] :: gsB.map hexStr).length - gsB.length = 2
    from by rw [hplen]; omega]
  rw [show List.drop 2 (([] : Str) :: [] :: gsB.map hexStr)
    = gsB.map hexStr from rfl]
  rw [show hextetsFoldVal 0 [] = some 0 from rfl]
  dsimp only
  rw [hextetsFoldVal_map gsB _ hB]
  congr 1
  rw [groupsVal_acc gsB, groupsVal_append, groupsVal_replicate_zero]
  rw [show 8 - (0 + gsB.length) = n from by omega]
  ring

theorem parseIPv6_parts_right (gsA : List Nat) (n : Nat)
    (hA : ∀ g ∈ gsA, g < 65536) (hlen : gsA.length + n = 8) (hn : 2 ≤ n)
    (hAne : gsA ≠ []) :
    parseIPv6Addr (joinWith ':' (gsA.map hexStr ++ [[], []]))
      = some (groupsVal (gsA ++ List.replicate n 0)) := by
  have ha1 : 1 ≤ gsA.length := List.length_pos.mpr hAne
  have hAmne : gsA.map hexStr ≠ [] := by
    intro h0
    exact hAne (List.map_eq_nil_iff.mp h0)
  have hplen : (gsA.map hexStr ++ [[], ([] : Str)]).length
      = gsA.length + 2 := by
    simp
  have hsplit := splitOnChar_joinWith ':' (gsA.map hexStr ++ [[], []])
    (by
      intro h0
      have := congrArg List.length h0
      rw [hplen] at this
      simp at this)
    (by
      intro p hp
      rcases List.mem_append.mp hp with h | h
      · exact map_hexStr_no_colon gsA p h
      rcases List.mem_cons.mp h with h | h
      · subst h; simp
      rcases List.mem_cons.mp h with h | h
      · subst h; simp
      · simp at h)
  unfold parseIPv6Addr
  rw [hsplit]
  rw [if_neg (by rw [hplen]; omega), if_neg (by rw [hplen]; omega)]
  have hmid : emptyIdxs
      (((gsA.map hexStr ++ [[], ([] : Str)]).drop 1).dropLast) 1
      = [gsA.length] := by
    have hd1 : (gsA.map hexStr ++ [[], ([] : Str)]).drop 1
        = (gsA.map hexStr).drop 1 ++ [[], []] := by
      rw [List.drop_append_eq_append_drop]
      have : 1 - (gsA.map hexStr).length = 0 := by
        simp
        omega
      rw [this, List.drop_zero]
    rw [hd1]
    rw [List.dropLast_append_of_ne_nil _ (by simp : [[], ([] : Str)] ≠ [])]
    rw [show ([[], ([] : Str)]).dropLast = [[]] from rfl]
    rw [emptyIdxs_append]
    rw [emptyIdxs_all_ne ((gsA.map hexStr).drop 1)
      (fun p hp => map_hexStr_ne_nil gsA p (List.drop_subset _ _ hp)) 1]
    rw [show emptyIdxs [[]] (1 + ((gsA.map hexStr).drop 1).length)
        = [1 + ((gsA.map hexStr).drop 1).length] from rfl]
    simp only [List.length_drop, List.length_map, List.nil_append]
    rw [show 1 + (gsA.length - 1) = gsA.length by omega]
  rw [hmid]
  dsimp only
  have hhead : ¬ ((gsA.map hexStr ++ [[], ([] : Str)]).headD [] = []) := by
    rw [headD_append_left _ _ hAmne]
    exact headD_ne_nil _ hAmne (map_hexStr_ne_nil gsA)
  rw [if_neg hhead]
  have hlast : (gsA.map hexStr ++ [[], ([] : Str)]).getLastD [] = [] := by
    rw [getLastD_append_left _ _ (by simp)]
    rfl
  rw [if_pos hlast]
  rw [show (gsA.map hexStr ++ [[], ([] : Str)]).length - gsA.length - 1 = 1
    from by rw [hplen]; omega]
  rw [if_pos rfl]
  dsimp only
  rw [if_neg (by omega)]
  have htake : (gsA.map hexStr ++ [[], ([] : Str)]).take gsA.length
      = gsA.map hexStr := List.take_left' (by simp)
  rw [htake]
  rw [show (gsA.map hexStr ++ [[], ([] : Str)]).length - 0
      = (gsA.map hexStr ++ [[], ([] : Str)]).length from by omega]
  rw [List.drop_length]
  rw [hextetsFoldVal_map gsA 0 hA]
  dsimp only
  rw [show ∀ x : Nat, hextetsFoldVal x [] = some x from fun x => rfl]
  congr 1
  rw [show List.foldl (fun a g => a * 65536 + g) 0 gsA = groupsVal gsA
    from rfl]
  rw [groupsVal_append, groupsVal_replicate_zero, List.length_replicate]
  rw [show 8 - (gsA.length + 0) = n from by omega]
  ring

theorem parseIPv6_parts_all_zero :
    parseIPv6Addr (joinWith ':' [[], [], []]) = some 0 := by decide

theorem parseIPv6Addr_v6AddrStr (a : Nat) (ha : a < 2 ^ 128) :
    parseIPv6Addr (v6AddrStr a) = some a := by
  have hg := toHextetVals_lt a
  have hval := groupsVal_toHextetVals a ha
  have hHlen : ((toHextetVals a).map hexStr).length = 8 := by
    simp [toHextetVals]
  have hfull : parseIPv6Addr (joinWith ':' ((toHextetVals a).map hexStr))
      = some a := by
    rw [parseIPv6_parts_full (toHextetVals a) hg rfl, hval]
  rw [v6AddrStr]
  rcases hbr : bestRunLoop 0 none 0 none 0 ((toHextetVals a).map hexStr)
    with ⟨bs, bl⟩
  cases bs with
  | none =>
    have hc : compressHextets ((toHextetVals a).map hexStr)
        = (toHextetVals a).map hexStr := by
      unfold compressHextets
      rw [hbr]
    rw [hc]
    exact hfull
  | some s =>
    by_cases hbl : bl > 1
    · obtain ⟨A, B, hAB, hAlen⟩ := bestRun_decomp _ s bl hbr (by omega)
      subst hAlen
      have hlen8 : A.length + bl + B.length = 8 := by
        have h1 := congrArg List.length hAB
        rw [hHlen] at h1
        simp only [List.length_append, List.length_replicate] at h1
        omega
      have hABassoc : (toHextetVals a).map hexStr
          = A ++ (List.replicate bl ['0'] ++ B) := by
        rw [hAB, List.append_assoc]
      have htakeA : ((toHextetVals a).map hexStr).take A.length = A := by
        rw [hABassoc]
        exact List.take_left' rfl
      have hdropAB : ((toHextetVals a).map hexStr).drop (A.length + bl)
          = B := by
        rw [hAB]
        exact List.drop_left' (by simp)
      have hdropA : ((toHextetVals a).map hexStr).drop A.length
          = List.replicate bl ['0'] ++ B := by
        rw [hABassoc]
        exact List.drop_left' rfl
      have hgsA : A = ((toHextetVals a).take A.length).map hexStr := by
        rw [List.map_take]
        exact htakeA.symm
      have hgsB : B = ((toHextetVals a).drop (A.length + bl)).map hexStr := by
        rw [List.map_drop]
        exact hdropAB.symm
      have hmidmap : (((toHextetVals a).drop A.length).take bl).map hexStr
          = List.replicate bl ['0'] := by
        rw [List.map_take, List.map_drop, hdropA]
        exact List.take_left' (by simp)
      have hmidrep : ((toHextetVals a).drop A.length).take bl
          = List.replicate bl 0 := by
        rw [List.eq_replicate_iff]
        constructor
        · have := congrArg List.length hmidmap
          simpa using this
        · intro g hgmem
          have : hexStr g ∈ List.replicate bl ['0'] := by
            rw [← hmidmap]
            exact List.mem_map_of_mem hexStr hgmem
          have := List.eq_of_mem_replicate this
          exact (hexStr_eq_zero_iff g).mp this
      have hsplitg : toHextetVals a
          = (toHextetVals a).take A.length ++ List.replicate bl 0
            ++ (toHextetVals a).drop (A.length + bl) := by
        rw [← hmidrep, List.append_assoc]
        rw [show ((toHextetVals a).drop A.length).take bl
            ++ (toHextetVals a).drop (A.length + bl)
          = (toHextetVals a).drop A.length from by
          rw [show (toHextetVals a).drop (A.length + bl)
            = ((toHextetVals a).drop A.length).drop bl from by
            rw [List.drop_drop]]
          exact List.take_append_drop _ _]
        exact (List.take_append_drop _ _).symm
      have hvalsplit : groupsVal ((toHextetVals a).take A.length
          ++ List.replicate bl 0
          ++ (toHextetVals a).drop (A.length + bl)) = a := by
        rw [← hsplitg]
        exact hval
      have hboundsA : ∀ g ∈ (toHextetVals a).take A.length, g < 65536 :=
        fun g hgm => hg g (List.take_subset _ _ hgm)
      have hboundsB : ∀ g ∈ (toHextetVals a).drop (A.length + bl), g < 65536 :=
        fun g hgm => hg g (List.drop_subset _ _ hgm)
      have hlengsA : ((toHextetVals a).take A.length).length = A.length := by
        have := congrArg List.length hgsA
        simpa using this.symm
      have hlengsB : ((toHextetVals a).drop (A.length + bl)).length
          = B.length := by
        have := congrArg List.length hgsB
        simpa using this.symm
      have hAlen0 : A = [] → A.length = 0 := fun h0 => by rw [h0]; rfl
      by_cases hBnil : B = []
      · have he8 : A.length + bl = 8 := by
          rw [hBnil] at hlen8
          simpa using hlen8
        have hdrop8 : ((toHextetVals a).map hexStr
            ++ [[]] : List Str).drop 8 = [[]] := by
          rw [List.drop_append_eq_append_drop]
          rw [List.drop_of_length_le (by rw [hHlen])]
          rw [hHlen]
          rfl
        by_cases hAnil : A = []
        · -- the whole address is zero
          have hcomp : compressHextets ((toHextetVals a).map hexStr)
              = [[], [], []] := by
            unfold compressHextets
            rw [hbr]
            dsimp only
            rw [if_pos hbl]
            rw [hHlen]
            rw [he8, if_pos rfl]
            rw [hAlen0 hAnil]
            rw [if_pos rfl]
            rw [List.take_zero]
            rw [hdrop8]
            rfl
          rw [hcomp]
          rw [parseIPv6_parts_all_zero]
          have hgsBnil : (toHextetVals a).drop (A.length + bl) = [] := by
            apply List.eq_nil_of_length_eq_zero
            rw [hlengsB, hBnil]
            rfl
          have ha0 : a = 0 := by
            rw [← hvalsplit, hgsBnil, List.append_nil, hAlen0 hAnil,
              List.take_zero, List.nil_append, groupsVal_replicate_zero]
          rw [ha0]
        · -- the zero run reaches the right edge
          have hcomp : compressHextets ((toHextetVals a).map hexStr)
              = A ++ [[], []] := by
            unfold compressHextets
            rw [hbr]
            dsimp only
            rw [if_pos hbl]
            rw [hHlen]
            rw [he8, if_pos rfl]
            rw [List.take_append_eq_append_take]
            rw [htakeA]
            rw [show A.length - ((toHextetVals a).map hexStr).length = 0
              from by rw [hHlen]; omega]
            rw [List.take_zero, List.append_nil]
            rw [hdrop8]
            rw [if_neg (by
              intro h0
              exact hAnil (List.eq_nil_of_length_eq_zero h0))]
          rw [hcomp]
          have hgsBnil : (toHextetVals a).drop (A.length + bl) = [] := by
            apply List.eq_nil_of_length_eq_zero
            rw [hlengsB, hBnil]
            rfl
          rw [hgsA]
          rw [parseIPv6_parts_right ((toHextetVals a).take A.length) bl
            hboundsA (by rw [hlengsA]; omega) (by omega)
            (by
              intro h0
              apply hAnil
              rw [hgsA, h0]
              rfl)]
          rw [hgsBnil, List.append_nil] at hvalsplit
          rw [hvalsplit]
      · have hB1 : 1 ≤ B.length := List.length_pos.mpr hBnil
        have hne8 : ¬ (A.length + bl = 8) := by omega
        by_cases hAnil : A = []
        · -- the zero run starts at the left edge
          have hcomp : compressHextets ((toHextetVals a).map hexStr)
              = [] :: [] :: B := by
            unfold compressHextets
            rw [hbr]
            dsimp only
            rw [if_pos hbl]
            rw [hHlen]
            rw [if_neg hne8]
            rw [htakeA, hdropAB]
            rw [hAlen0 hAnil]
            rw [if_pos rfl]
            rw [hAnil, List.nil_append]
          rw [hcomp]
          rw [show ([] : Str) :: [] :: B
            = [] :: [] :: ((toHextetVals a).drop (A.length + bl)).map hexStr
            from by rw [← hgsB]]
          rw [parseIPv6_parts_left ((toHextetVals a).drop (A.length + bl)) bl
            hboundsB (by
              rw [hlengsB]
              have := hAlen0 hAnil
              omega) (by omega)
            (by
              intro h0
              apply hBnil
              rw [hgsB, h0]
              rfl)]
          rw [hAlen0 hAnil] at hvalsplit ⊢
          rw [List.take_zero, List.nil_append] at hvalsplit
          rw [hvalsplit]
        · -- the zero run is inside
          have hcomp : compressHextets ((toHextetVals a).map hexStr)
              = A ++ [] :: B := by
            unfold compressHextets
            rw [hbr]
            dsimp only
            rw [if_pos hbl]
            rw [hHlen]
            rw [if_neg hne8]
            rw [htakeA, hdropAB]
            rw [if_neg (by
              intro h0
              exact hAnil (List.eq_nil_of_length_eq_zero h0))]
          rw [hcomp]
          rw [hgsA, hgsB]
          rw [parseIPv6_parts_mid ((toHextetVals a).take A.length)
            ((toHextetVals a).drop (A.length + bl)) bl hboundsA hboundsB
            (by rw [hlengsA, hlengsB]; omega) (by omega)
            (by
              intro h0
              apply hAnil
              rw [hgsA, h0]
              rfl)
            (by
              intro h0
              apply hBnil
              rw [hgsB, h0]
              rfl)]
          rw [hvalsplit]
    · have hc : compressHextets ((toHextetVals a).map hexStr)
          = (toHextetVals a).map hexStr := by
        unfold compressHextets
        rw [hbr]
        dsimp only
        rw [if_neg hbl]
      rw [hc]
      exact hfull

theorem mem_joinWith (sep : Char) (parts : List Str) (c : Char)
    (hc : c ∈ joinWith sep parts) : c = sep ∨ ∃ p ∈ parts, c ∈ p := by
  induction parts with
  | nil => simp [joinWith] at hc
  | cons p ps ih =>
    cases ps with
    | nil =>
      exact Or.inr ⟨p, by simp, hc⟩
    | cons q qs =>
      rw [joinWith] at hc
      rcases List.mem_append.mp hc with h | h
      · exact Or.inr ⟨p, by simp, h⟩
      rcases List.mem_cons.mp h with h | h
      · exact Or.inl h
      · rcases ih h with h1 | ⟨p', hp', hcp⟩
        · exact Or.inl h1
        · exact Or.inr ⟨p', List.mem_cons_of_mem _ hp', hcp⟩

theorem compress_mem (H : List Str) (x : Str)
    (hx : x ∈ compressHextets H) : x ∈ H ∨ x = [] := by
  unfold compressHextets at hx
  rcases hbr : bestRunLoop 0 none 0 none 0 H with ⟨bs, bl⟩
  rw [hbr] at hx
  cases bs with
  | none => exact Or.inl hx
  | some s =>
    dsimp only at hx
    by_cases hbl : bl > 1
    · rw [if_pos hbl] at hx
      have hbm : ∀ y, y ∈ (if s + bl = H.length then H ++ [[]] else H) →
          y ∈ H ∨ y = ([] : Str) := by
        intro y hy
        split at hy
        · rcases List.mem_append.mp hy with h | h
          · exact Or.inl h
          · simp at h
            exact Or.inr h
        · exact Or.inl hy
      by_cases hs : s = 0
      · rw [if_pos hs] at hx
        rcases List.mem_cons.mp hx with h | h
        · exact Or.inr h
        rcases List.mem_append.mp h with h | h
        · exact hbm _ (List.take_subset _ _ h)
        rcases List.mem_cons.mp h with h | h
        · exact Or.inr h
        · exact hbm _ (List.drop_subset _ _ h)
      · rw [if_neg hs] at hx
        rcases List.mem_append.mp hx with h | h
        · exact hbm _ (List.take_subset _ _ h)
        rcases List.mem_cons.mp h with h | h
        · exact Or.inr h
        · exact hbm _ (List.drop_subset _ _ h)
    · rw [if_neg hbl] at hx
      exact Or.inl hx

theorem mem_v6AddrStr (a : Nat) (c : Char) (hc : c ∈ v6AddrStr a) :
    isHexChar c = true ∨ c = ':' := by
  rw [v6AddrStr] at hc
  rcases mem_joinWith ':' _ c hc with h | ⟨p, hp, hcp⟩
  · exact Or.inr h
  · rcases compress_mem _ p hp with h1 | h1
    · obtain ⟨g, _, rfl⟩ := List.mem_map.mp h1
      exact Or.inl (hexStr_mem_hex g c hcp)
    · subst h1
      simp at hcp

theorem slash_not_mem_v6AddrStr (a : Nat) : '/' ∉ v6AddrStr a := by
  intro h
  rcases mem_v6AddrStr a '/' h with h1 | h1
  · exact (isHexChar_implies '/' h1).2.2 rfl
  · exact absurd h1 (by decide)

theorem dot_not_mem_v6AddrStr (a : Nat) : '.' ∉ v6AddrStr a := by
  intro h
  rcases mem_v6AddrStr a '.' h with h1 | h1
  · exact (isHexChar_implies '.' h1).1 rfl
  · exact absurd h1 (by decide)

theorem parseIPv4Addr_v6AddrStr (a : Nat) :
    parseIPv4Addr (v6AddrStr a) = none := by
  unfold parseIPv4Addr
  rw [splitOnChar_no_sep '.' _ (dot_not_mem_v6AddrStr a)]

theorem tryV6_networkStr (b : Bool) (a p : Nat) (ha : a < 2 ^ 128)
    (hp : p ≤ 128) (hm : a % 2 ^ (128 - p) = 0) :
    tryV6 b (v6AddrStr a) (some (decStr p)) = some (.v6 a p) := by
  unfold tryV6
  rw [parseIPv6Addr_v6AddrStr a ha]
  dsimp only
  rw [parsePrefixLen_decStr 128 p hp]
  exact mkNetwork_self b 128 a p _ hm

theorem ipNetwork_networkStr_v6 (b : Bool) (a p : Nat) (ha : a < 2 ^ 128)
    (hp : p ≤ 128) (hm : a % 2 ^ (128 - p) = 0) :
    ipNetwork b (networkStr (.v6 a p)) = some (.v6 a p) := by
  unfold ipNetwork
  rw [show networkStr (.v6 a p) = v6AddrStr a ++ '/' :: decStr p from rfl]
  rw [splitOnChar_two '/' _ _ (slash_not_mem_v6AddrStr a)
    (slash_not_mem_decStr p)]
  dsimp only
  rw [show tryV4 b (v6AddrStr a) (some (decStr p)) = none from by
    unfold tryV4
    rw [parseIPv4Addr_v6AddrStr]]
  rw [tryV6_networkStr b a p ha hp hm]

theorem parsePrefixLen_le (m : Nat) (s : Str) (p : Nat)
    (h : parsePrefixLen m s = some p) : p ≤ m := by
  unfold parsePrefixLen at h
  split at h
  · cases h
  · split at h
    · cases h
    · split at h
      · rename_i hle
        rw [Option.some_inj] at h
        omega
      · cases h

theorem parseIPv6Addr_lt (s : Str) (a : Nat)
    (h : parseIPv6Addr s = some a) : a < 2 ^ 128 := by
  have hpow : (65536 : Nat) ^ 8 = 2 ^ 128 := by norm_num
  unfold parseIPv6Addr at h
  dsimp only at h
  split at h
  · cases h
  · split at h
    · cases h
    · split at h
      · -- no '::'
        rename_i hemp
        split at h
        · cases h
        · split at h
          · cases h
          · split at h
            · cases h
            · rename_i hne8 _ _
              have := hextetsFoldVal_lt _ _ _ h
              rw [not_not] at hne8
              rw [hne8] at this
              omega
      · -- single '::'
        rename_i i hemp
        split at h
        · rename_i hi lo hhi hlo
          split at h
          · cases h
          · rename_i hguard
            split at h
            · cases h
            · rename_i v1 hv1
              have b1 := hextetsFoldVal_lt _ _ _ hv1
              have b2 := hextetsFoldVal_lt _ _ _ h
              have hL1 : (List.take hi (splitOnChar ':' s)).length ≤ hi := by
                simp [List.length_take]
              have hL2 : (List.drop ((splitOnChar ':' s).length - lo)
                  (splitOnChar ':' s)).length ≤ lo := by
                simp only [List.length_drop]
                omega
              have hX1 : 1 ≤ (65536 : Nat) ^ hi :=
                Nat.one_le_pow _ _ (by omega)
              have hP1 : 1 ≤ (65536 : Nat) ^ (8 - (hi + lo)) :=
                Nat.one_le_pow _ _ (by omega)
              have p1 : v1 + 1 ≤ 65536 ^ hi := by
                have := Nat.pow_le_pow_right
                  (show 1 ≤ 65536 by omega) hL1
                omega
              have p2 : v1 * 65536 ^ (8 - (hi + lo)) + 1
                  ≤ 65536 ^ (hi + (8 - (hi + lo))) := by
                rw [pow_add]
                have hm1 : (v1 + 1) * 65536 ^ (8 - (hi + lo))
                    ≤ 65536 ^ hi * 65536 ^ (8 - (hi + lo)) :=
                  Nat.mul_le_mul_right _ p1
                rw [add_mul, one_mul] at hm1
                omega
              have p3 : a < 65536 ^ (hi + (8 - (hi + lo))) * 65536 ^ lo := by
                have hq : (v1 * 65536 ^ (8 - (hi + lo)) + 1)
                    * 65536 ^ (List.drop ((splitOnChar ':' s).length - lo)
                        (splitOnChar ':' s)).length
                    ≤ 65536 ^ (hi + (8 - (hi + lo))) * 65536 ^ lo :=
                  Nat.mul_le_mul p2
                    (Nat.pow_le_pow_right (by omega) hL2)
                omega
              have hfin : (65536 : Nat) ^ (hi + (8 - (hi + lo)))
                  * 65536 ^ lo = 65536 ^ 8 := by
                rw [← pow_add]
                congr 1
                omega
              rw [hfin, hpow] at p3
              exact p3
        · cases h
      · cases h

theorem tryV4_inv (b : Bool) (addr : Str) (ps : Option Str) (nw : IPNetwork)
    (h : tryV4 b addr ps = some nw) :
    ∃ a p, nw = .v4 a p ∧ p ≤ 32 ∧ a < 2 ^ 32 ∧ a % 2 ^ (32 - p) = 0
      ∧ (ps = none → p = 32) := by
  unfold tryV4 at h
  cases hp4 : parseIPv4Addr addr with
  | none => rw [hp4] at h; cases h
  | some a0 =>
    rw [hp4] at h
    have ha0 := parseIPv4Addr_lt addr a0 hp4
    cases ps with
    | none =>
      dsimp only at h
      obtain ⟨a', hnw, hle', hmod⟩ := mkNetwork_masked b 32 a0 32 _ nw h
      exact ⟨a', 32, hnw, le_refl 32, by omega, hmod, fun _ => rfl⟩
    | some pstr =>
      dsimp only at h
      cases hpp : parsePrefixLen 32 pstr with
      | none => rw [hpp] at h; cases h
      | some p =>
        rw [hpp] at h
        have hple := parsePrefixLen_le 32 pstr p hpp
        obtain ⟨a', hnw, hle', hmod⟩ := mkNetwork_masked b 32 a0 p _ nw h
        exact ⟨a', p, hnw, hple, by omega, hmod, fun hc => by cases hc⟩

theorem tryV6_inv (b : Bool) (addr : Str) (ps : Option Str) (nw : IPNetwork)
    (h : tryV6 b addr ps = some nw) :
    ∃ a p, nw = .v6 a p ∧ p ≤ 128 ∧ a < 2 ^ 128 ∧ a % 2 ^ (128 - p) = 0
      ∧ (ps = none → p = 128) := by
  unfold tryV6 at h
  cases hp6 : parseIPv6Addr addr with
  | none => rw [hp6] at h; cases h
  | some a0 =>
    rw [hp6] at h
    have ha0 := parseIPv6Addr_lt addr a0 hp6
    cases ps with
    | none =>
      dsimp only at h
      obtain ⟨a', hnw, hle', hmod⟩ := mkNetwork_masked b 128 a0 128 _ nw h
      exact ⟨a', 128, hnw, le_refl 128, by omega, hmod, fun _ => rfl⟩
    | some pstr =>
      dsimp only at h
      cases hpp : parsePrefixLen 128 pstr with
      | none => rw [hpp] at h; cases h
      | some p =>
        rw [hpp] at h
        have hple := parsePrefixLen_le 128 pstr p hpp
        obtain ⟨a', hnw, hle', hmod⟩ := mkNetwork_masked b 128 a0 p _ nw h
        exact ⟨a', p, hnw, hple, by omega, hmod, fun hc => by cases hc⟩

theorem valid_roundtrip (b : Bool) (nw : IPNetwork) (hv : nw.valid) :
    ipNetwork b (networkStr nw) = some nw := by
  cases nw with
  | v4 a p =>
    simp only [IPNetwork.valid] at hv
    exact ipNetwork_networkStr_v4 b a p hv.2.1 hv.1 hv.2.2
  | v6 a p =>
    simp only [IPNetwork.valid] at hv
    exact ipNetwork_networkStr_v6 b a p hv.2.1 hv.1 hv.2.2

/-- Claim C5: for every line that `ip_network` accepts (in either
revision, selected by `b`), the `address` value written into the `add`
statement — `str(network)`, i.e. `networkStr` — re-parses to the same
network, and a bare address line (no '/') yields the full-length prefix
(/32 for IPv4, /128 for IPv6). -/
theorem c5_roundtrip (b : Bool) (line : Str) (nw : IPNetwork)
    (h : ipNetwork b line = some nw) :
    ipNetwork b (networkStr nw) = some nw ∧
    ('/' ∉ line → nw.plen = nw.bitSize) := by
  unfold ipNetwork at h
  rcases hsp : splitOnChar '/' line with _ | ⟨addr, rest⟩
  · rw [hsp] at h
    simp at h
  · cases rest with
    | nil =>
      rw [hsp] at h
      dsimp only at h
      cases hp4 : tryV4 b addr none with
      | some nw1 =>
        rw [hp4] at h
        dsimp only at h
        rw [Option.some_inj] at h
        subst h
        obtain ⟨a, p, rfl, hle, hlt, hmod, hps⟩ :=
          tryV4_inv b addr none nw1 hp4
        refine ⟨valid_roundtrip b _ ?_, ?_⟩
        · simp only [IPNetwork.valid]
          exact ⟨hle, hlt, hmod⟩
        · intro _
          rw [hps rfl]
          rfl
      | none =>
        rw [hp4] at h
        dsimp only at h
        obtain ⟨a, p, rfl, hle, hlt, hmod, hps⟩ :=
          tryV6_inv b addr none nw h
        refine ⟨valid_roundtrip b _ ?_, ?_⟩
        · simp only [IPNetwork.valid]
          exact ⟨hle, hlt, hmod⟩
        · intro _
          rw [hps rfl]
          rfl
    | cons ps rest2 =>
      cases rest2 with
      | nil =>
        rw [hsp] at h
        dsimp only at h
        have hbare : '/' ∉ line → False := by
          intro hnos
          rw [splitOnChar_no_sep '/' line hnos] at hsp
          simp at hsp
        cases hp4 : tryV4 b addr (some ps) with
        | some nw1 =>
          rw [hp4] at h
          dsimp only at h
          rw [Option.some_inj] at h
          subst h
          obtain ⟨a, p, rfl, hle, hlt, hmod, _⟩ :=
            tryV4_inv b addr (some ps) nw1 hp4
          refine ⟨valid_roundtrip b _ ?_, fun hnos => absurd (hbare hnos) id⟩
          simp only [IPNetwork.valid]
          exact ⟨hle, hlt, hmod⟩
        | none =>
          rw [hp4] at h
          dsimp only at h
          obtain ⟨a, p, rfl, hle, hlt, hmod, _⟩ :=
            tryV6_inv b addr (some ps) nw h
          refine ⟨valid_roundtrip b _ ?_, fun hnos => absurd (hbare hnos) id⟩
          simp only [IPNetwork.valid]
          exact ⟨hle, hlt, hmod⟩
      | cons x xs =>
        rw [hsp] at h
        simp at h

/-- Witness for C5 at a bare IPv4 address line. -/
theorem c5_roundtrip_witness :
    ipNetwork true (networkStr (.v4 3232235777 32))
      = some (.v4 3232235777 32) ∧
    ('/' ∉ ("192.168.1.1".data : Str) →
      IPNetwork.plen (.v4 3232235777 32)
        = IPNetwork.bitSize (.v4 3232235777 32)) :=
  c5_roundtrip true ("192.168.1.1".data) (.v4 3232235777 32) (by decide)
